import Mathlib

/-!
# Verification of the IdeaSoft → İkas 301-redirect generator (`app.py`)

A shallow embedding of the program's pure core: price/text normalizers,
slug generation, URL handling, the exclusion filter, page-type
classification, the breadth-first crawler, the JSON-LD product extractor,
the destination-index construction, the matcher, and the redirect-file
row assembly.  Network fetching and HTML parsing (requests/BeautifulSoup)
are external effects; they are abstracted as an environment function
`Web : String → Option Doc`, where `Doc` records exactly the query
results the source code reads off a parsed page.

Python strings are modelled as Lean `String`/`List Char`; Python floats
as `ℚ` (the parsed decimals are exact); Python dicts as insertion-ordered
association lists with overwriting insert.  All definitions are
structurally recursive so concrete runs evaluate by `decide`/`rfl`.
-/

namespace App

/-! ## Python string primitives -/

/-- Python `str.lower()` restricted to the character repertoire this
program meets: ASCII, plus the single-character Turkish case pairs.
(`'İ'.lower()` is two codepoints in Python; it never reaches a
lowercasing site in the claims below.) -/
def pyLowerChar (c : Char) : Char :=
  if 'A' ≤ c ∧ c ≤ 'Z' then Char.ofNat (c.toNat + 32)
  else if c = 'Ç' then 'ç'
  else if c = 'Ğ' then 'ğ'
  else if c = 'Ö' then 'ö'
  else if c = 'Ş' then 'ş'
  else if c = 'Ü' then 'ü'
  else c

/-- Python `str.upper()` restricted likewise (used by `_normalize_sku`). -/
def pyUpperChar (c : Char) : Char :=
  if 'a' ≤ c ∧ c ≤ 'z' then Char.ofNat (c.toNat - 32)
  else if c = 'ç' then 'Ç'
  else if c = 'ğ' then 'Ğ'
  else if c = 'ö' then 'Ö'
  else if c = 'ş' then 'Ş'
  else if c = 'ü' then 'Ü'
  else c

def pyLower (s : String) : String := ⟨s.data.map pyLowerChar⟩

def pyUpper (s : String) : String := ⟨s.data.map pyUpperChar⟩

/-- ASCII whitespace, modelling Python's `str.strip()` / regex `\s`. -/
def isPySpace (c : Char) : Bool :=
  c = ' ' ∨ c = '\t' ∨ c = '\n' ∨ c = '\r' ∨ c = '\x0b' ∨ c = '\x0c'

/-- `List.dropWhile` from the right. -/
def dropWhileEnd (p : Char → Bool) (l : List Char) : List Char :=
  (l.reverse.dropWhile p).reverse

/-- Python `str.strip(chars)` for a single-character strip set. -/
def pyStripChar (ch : Char) (l : List Char) : List Char :=
  dropWhileEnd (fun c => c = ch) (l.dropWhile (fun c => c = ch))

/-- Python `str.strip()` (whitespace). -/
def pyStrip (s : String) : String :=
  ⟨dropWhileEnd isPySpace (s.data.dropWhile isPySpace)⟩

/-- `pat.isPrefixOf s` on character lists, decidable and structural. -/
def isPrefixL : List Char → List Char → Bool
  | [], _ => true
  | _ :: _, [] => false
  | a :: as, b :: bs => a = b && isPrefixL as bs

/-- Python `pat in s` (substring containment). -/
def hasInfixL (s pat : List Char) : Bool :=
  isPrefixL pat s ||
    match s with
    | [] => false
    | _ :: t => hasInfixL t pat

/-- Python `pat in s` on strings. -/
def strContains (s pat : String) : Bool := hasInfixL s.data pat.data

/-- Python `s.count(c)` for a single character. -/
def countChar (c : Char) (l : List Char) : Nat := (l.filter (fun x => x = c)).length

/-- Python `s.split(sep)` for a one-character separator (`"".split` gives
`[""]`, matching Python). -/
def splitOnCharL (sep : Char) : List Char → List (List Char)
  | [] => [[]]
  | c :: t =>
    let r := splitOnCharL sep t
    if c = sep then [] :: r
    else match r with
         | [] => [[c]]
         | h :: rt => (c :: h) :: rt

/-- Last element of a split: the segment after the last separator
(`s.split(sep)[-1]`; the default `[]` is unreachable since a split is
never empty). -/
def lastSegment (sep : Char) (l : List Char) : List Char :=
  ((splitOnCharL sep l).getLast?).getD []

/-- Python `s.replace(a, b)` where `a` is one character and `b` one
character. -/
def replaceChar (a b : Char) (l : List Char) : List Char :=
  l.map (fun c => if c = a then b else c)

/-- Python `s.replace(a, "")` for one character: deletion. -/
def eraseChar (a : Char) (l : List Char) : List Char :=
  l.filter (fun c => c ≠ a)

/-! ## `clean_price_to_number` -/

def isDigitChar (c : Char) : Bool := '0' ≤ c ∧ c ≤ '9'

/-- `PRICE_CLEAN_RE = re.compile(r"[^0-9,.\-]")`; `PRICE_CLEAN_RE.sub("", t)`
deletes every character outside `0-9`, `,`, `.`, `-`. -/
def priceClean (l : List Char) : List Char :=
  l.filter (fun c => isDigitChar c || c = ',' || c = '.' || c = '-')

/-- The separator-normalization block of `clean_price_to_number`
(source lines 58–64): with both `,` and `.` present, dots are dropped and
the comma becomes the decimal point; with a single comma followed by a
1–2 character tail, the comma becomes the decimal point; otherwise
commas are dropped. -/
def sepNormalize (l : List Char) : List Char :=
  if hasInfixL l [','] ∧ hasInfixL l ['.'] then
    replaceChar ',' '.' (eraseChar '.' l)
  else
    if hasInfixL l [','] ∧ countChar ',' l = 1 ∧
        ((lastSegment ',' l).length = 1 ∨ (lastSegment ',' l).length = 2) then
      replaceChar ',' '.' l
    else
      eraseChar ',' l

/-- Decimal digits of a numeral, most significant first. -/
def digitsVal (l : List Char) : ℕ :=
  l.foldl (fun acc c => 10 * acc + (c.toNat - '0'.toNat)) 0

/-- Decimal-string parser modelling Python `float(t)` on the strings this
program can feed it (digits, at most one dot, an optional leading sign);
any other shape raises `ValueError`, modelled as `none`.  The value is
exact: `⟨int⟩.⟨frac⟩` parses to `(int·10^k + frac) / 10^k`. -/
def parsePyFloat (l : List Char) : Option ℚ :=
  let (sign, body) :=
    match l with
    | '-' :: rest => ((-1 : ℤ), rest)
    | '+' :: rest => ((1 : ℤ), rest)
    | _ => ((1 : ℤ), l)
  let parts := splitOnCharL '.' body
  match parts with
  | [intPart] =>
    if intPart ≠ [] ∧ intPart.all isDigitChar then
      some (mkRat (sign * (digitsVal intPart : ℤ)) 1)
    else none
  | [intPart, fracPart] =>
    if (intPart ≠ [] ∨ fracPart ≠ []) ∧ intPart.all isDigitChar ∧ fracPart.all isDigitChar then
      some (mkRat (sign * ((digitsVal intPart * 10 ^ fracPart.length + digitsVal fracPart : ℕ) : ℤ))
        (10 ^ fracPart.length))
    else none
  | _ => none

/-- `clean_price_to_number` (source lines 51–68). -/
def clean_price_to_number (text : Option String) : Option ℚ :=
  match text with
  | none => none
  | some s =>
    if s = "" then none
    else
      let t := pyStrip s
      if t = "" then none
      else
        let t1 := priceClean t.data
        parsePyFloat (sepNormalize t1)

/-! ## `slugify` -/

/-- Models `unicodedata.normalize("NFKD", ·)` followed by
`encode("ascii", "ignore")` for one character.  ASCII characters map to
themselves; accented Latin letters decompose to their base letter (the
combining mark is then dropped by the ASCII encode); characters with no
decomposition to an ASCII base — notably the Turkish dotless `ı`
(U+0131, which has no decomposition mapping in the Unicode data) — are
dropped entirely.  The table covers the repertoire exercised here;
remaining non-ASCII characters are dropped. -/
def asciiFold (c : Char) : List Char :=
  if c.toNat < 128 then [c]
  else if c = 'Ç' then ['C'] else if c = 'ç' then ['c']
  else if c = 'Ğ' then ['G'] else if c = 'ğ' then ['g']
  else if c = 'İ' then ['I'] else if c = 'ı' then []
  else if c = 'Ö' then ['O'] else if c = 'ö' then ['o']
  else if c = 'Ş' then ['S'] else if c = 'ş' then ['s']
  else if c = 'Ü' then ['U'] else if c = 'ü' then ['u']
  else if c = 'Á' ∨ c = 'À' ∨ c = 'Â' ∨ c = 'Ä' then ['A']
  else if c = 'á' ∨ c = 'à' ∨ c = 'â' ∨ c = 'ä' then ['a']
  else if c = 'É' ∨ c = 'È' ∨ c = 'Ê' ∨ c = 'Ë' then ['E']
  else if c = 'é' ∨ c = 'è' ∨ c = 'ê' ∨ c = 'ë' then ['e']
  else if c = 'Í' ∨ c = 'Î' ∨ c = 'Ï' then ['I']
  else if c = 'í' ∨ c = 'î' ∨ c = 'ï' then ['i']
  else if c = 'Ó' ∨ c = 'Ò' ∨ c = 'Ô' then ['O']
  else if c = 'ó' ∨ c = 'ò' ∨ c = 'ô' then ['o']
  else if c = 'Ú' ∨ c = 'Ù' ∨ c = 'Û' then ['U']
  else if c = 'ú' ∨ c = 'ù' ∨ c = 'û' then ['u']
  else if c = 'Ñ' then ['N'] else if c = 'ñ' then ['n']
  else []

/-- Replace every maximal run of characters satisfying `p` by a single
`'-'`; `inRun` records whether the previous character was part of such a
run.  `collapseRuns p l` models `re.sub(p-class ++ "+", "-", l)`. -/
def collapseAux (p : Char → Bool) : Bool → List Char → List Char
  | _, [] => []
  | true, c :: t => if p c then collapseAux p true t else c :: collapseAux p false t
  | false, c :: t => if p c then '-' :: collapseAux p true t else c :: collapseAux p false t

def collapseRuns (p : Char → Bool) (l : List Char) : List Char := collapseAux p false l

def isLowerAlnum (c : Char) : Bool := ('a' ≤ c ∧ c ≤ 'z') ∨ isDigitChar c

/-- `slugify` (source lines 70–79): NFKD + ASCII-ignore fold, lowercase,
`re.sub(r"[^a-z0-9]+", "-")`, `strip("-")`, `re.sub(r"-{2,}", "-")`
(replacing a single `-` by `-` is the identity, so the last step is
modelled by the same run-collapse). -/
def slugify (value : String) : String :=
  if value = "" then ""
  else
    let folded := (value.data.map asciiFold).foldr (· ++ ·) []
    let lowered := folded.map pyLowerChar
    let collapsed := collapseRuns (fun c => !isLowerAlnum c) lowered
    let stripped := pyStripChar '-' collapsed
    ⟨collapseRuns (fun c => c = '-') stripped⟩

/-! ## URL handling

`urllib.parse` is modelled for the URL shapes this program produces and
consumes: `scheme://netloc/path?query#fragment` and scheme-less
plain paths.  (`;`-parameters and bare `scheme:` URLs are outside the
repertoire.) -/

structure UrlParts where
  scheme : List Char
  netloc : List Char
  path : List Char
  query : List Char
  fragment : List Char
deriving Repr, DecidableEq

/-- Split at the first occurrence of `sep`: `(before, some after)` or
`(l, none)` when absent. -/
def splitFirstOn (sep : Char) : List Char → List Char × Option (List Char)
  | [] => ([], none)
  | c :: t =>
    if c = sep then ([], some t)
    else
      let (b, a) := splitFirstOn sep t
      (c :: b, a)

/-- Split at the first occurrence of the infix `pat` (nonempty):
`(before, some after)` or `(l, none)` when absent. -/
def splitFirstInfix (pat : List Char) : List Char → List Char × Option (List Char)
  | [] => ([], none)
  | c :: t =>
    if isPrefixL pat (c :: t) then ([], some ((c :: t).drop pat.length))
    else
      let (b, a) := splitFirstInfix pat t
      (c :: b, a)

/-- `urllib.parse.urlparse`, for `scheme://netloc/path?query#fragment`
shapes.  The fragment is split off first, then the query; `://`
separates the scheme from the network location, which extends to the
first `/`. -/
def urlparse (url : String) : UrlParts :=
  match (splitFirstInfix [':', '/', '/'] (splitFirstOn '?' (splitFirstOn '#' url.data).1).1).2 with
  | none =>
    { scheme := [], netloc := [],
      path := (splitFirstOn '?' (splitFirstOn '#' url.data).1).1,
      query := ((splitFirstOn '?' (splitFirstOn '#' url.data).1).2).getD [],
      fragment := ((splitFirstOn '#' url.data).2).getD [] }
  | some r =>
    { scheme := (splitFirstInfix [':', '/', '/']
        (splitFirstOn '?' (splitFirstOn '#' url.data).1).1).1,
      netloc := r.takeWhile (fun c => c ≠ '/'),
      path := r.dropWhile (fun c => c ≠ '/'),
      query := ((splitFirstOn '?' (splitFirstOn '#' url.data).1).2).getD [],
      fragment := ((splitFirstOn '#' url.data).2).getD [] }

/-- `urlunparse((scheme, netloc, path, "", "", ""))`, the query- and
fragment-free reassembly used to normalize discovered links. -/
def unparseClean (p : UrlParts) : String :=
  if p.scheme = [] ∧ p.netloc = [] then ⟨p.path⟩
  else ⟨p.scheme ++ [':', '/', '/'] ++ p.netloc ++ p.path⟩

/-- `_same_domain` (source lines 87–93): equal `netloc`s. -/
def sameDomain (a b : String) : Bool :=
  (urlparse a).netloc = (urlparse b).netloc

/-- `urljoin(base, href)`, modelled for the reference shapes met here:
absolute URLs pass through, protocol-relative `//…` take the base
scheme, root-relative `/…` take the base origin, and other relative
references resolve against the base path's directory. -/
def urljoin (base href : String) : String :=
  if href = "" then base
  else if (splitFirstInfix [':', '/', '/'] href.data).2.isSome ∧
      (splitFirstInfix [':', '/', '/'] href.data).1 ≠ [] then href
  else
    let b := urlparse base
    if isPrefixL ['/', '/'] href.data then ⟨b.scheme ++ [':'] ++ href.data⟩
    else if isPrefixL ['/'] href.data then ⟨b.scheme ++ [':', '/', '/'] ++ b.netloc ++ href.data⟩
    else
      let dir := dropWhileEnd (fun c => c ≠ '/') b.path
      let dir := if dir = [] then ['/'] else dir
      ⟨b.scheme ++ [':', '/', '/'] ++ b.netloc ++ dir ++ href.data⟩

/-! ## `_should_exclude_url` -/

/-- The fixed denylist of `_should_exclude_url` (source lines 100–133). -/
def excludePatterns : List String :=
  ["/checkout", "/cart", "/sepet", "/login", "/giris", "/register",
   "/uye-ol", "/logout", "/cikis", "/search", "/ara", "/filter",
   "/compare", "/karsilastir", "/wishlist", "/favori", "/profile",
   "/profil", "/account", "/hesap", "/payment", "/odeme", "/api/",
   "/ajax/", "/ajax", "/json/", ".json", ".xml", ".rss", "#",
   "?print=", "?export="]

/-- `_should_exclude_url` (source lines 95–134): an empty URL is
excluded, otherwise case-insensitive substring membership against the
denylist. -/
def shouldExcludeUrl (href : String) : Bool :=
  if href = "" then true
  else
    let hrefL := pyLower href
    excludePatterns.any (fun pat => strContains hrefL pat)

/-! ## `_determine_page_type` -/

/-- The outcome of the BeautifulSoup queries `find_all_page_links` and
`_determine_page_type` run against a fetched page.  HTML parsing is
external; a `Doc` records exactly what the source reads off the soup:
the raw `href` of every `<a href=…>` in document order, the first truthy
`href`/`content` among the "next page" selectors, the boolean results of
the four product/blog indicator queries, the soup's truthiness, and the
three title sources. -/
structure Doc where
  anchors : List String
  nextCandidate : Option String
  truthy : Bool
  ogTypeProductMeta : Bool
  ogTypeArticleMeta : Bool
  hasProductContainer : Bool
  hasBreadcrumbNav : Bool
  hasTitleTag : Bool
  titleString : Option String
  ogTitleContent : Option String
  h1Text : Option String
deriving Repr, DecidableEq

def productPatterns : List String :=
  ["/urun-", "/urun/", "/product/", "/p-", "/p/", "/detay-", "/detail/"]

def blogPatterns : List String := ["/blog", "/haber", "/news", "/article"]

def categoryPatterns : List String := ["/kategori", "/category", "/katalog", "/catalog"]

/-- `_determine_page_type` (source lines 136–168): URL-path patterns in
the order product → blog → category, then HTML indicators, defaulting to
`"page"`. -/
def determinePageType (url : String) (soup : Doc) : String :=
  let urlL := pyLower url
  let path : String := ⟨(urlparse urlL).path⟩
  if productPatterns.any (fun p => strContains path p) then "product"
  else if blogPatterns.any (fun p => strContains path p) then "blog"
  else if categoryPatterns.any (fun p => strContains path p) then "category"
  else if soup.truthy then
    if soup.ogTypeProductMeta then "product"
    else if soup.ogTypeArticleMeta then "blog"
    else if soup.hasProductContainer then "product"
    else if soup.hasBreadcrumbNav && strContains path "/urun" then "product"
    else "page"
  else "page"

/-! ## `_discover_all_links_from_page` and `find_all_page_links` -/

/-- One crawled page (`all_pages.append({...})`, source lines 694–699). -/
structure CrawlPage where
  url : String
  title : String
  slug : String
  type : String
deriving Repr, DecidableEq

/-- The anchor scan of `_discover_all_links_from_page` (source lines
614–628): each `href` is absolutized, kept when it is same-domain and
not excluded, then normalized to scheme+host+path and added to the
`found` set (modelled as an order-preserving deduplicated list) unless
it equals the base URL. -/
def discoverFound (baseUrl : String) (anchors : List String) : List String :=
  anchors.foldl
    (fun acc href =>
      if href = "" then acc
      else
        let absUrl := urljoin baseUrl href
        if sameDomain baseUrl absUrl && !shouldExcludeUrl absUrl then
          let cleanUrl := unparseClean (urlparse absUrl)
          if cleanUrl ≠ "" ∧ cleanUrl ≠ baseUrl ∧ cleanUrl ∉ acc then acc ++ [cleanUrl]
          else acc
        else acc)
    []

/-- `_discover_all_links_from_page` (source lines 608–647): the anchor
scan plus the single pagination "next" link, absolutized but not
filtered. -/
def discoverAllLinksFromPage (baseUrl : String) (soup : Doc) :
    List String × Option String :=
  (discoverFound baseUrl soup.anchors,
   soup.nextCandidate.map (fun c => urljoin baseUrl c))

/-- Python `str.title()` for ASCII: the first letter of each letter run
is uppercased, the rest lowercased. -/
def pyTitleAux : Bool → List Char → List Char
  | _, [] => []
  | prevAlpha, c :: t =>
    if ('a' ≤ c ∧ c ≤ 'z') ∨ ('A' ≤ c ∧ c ≤ 'Z') then
      (if prevAlpha then pyLowerChar c else pyUpperChar c) :: pyTitleAux true t
    else c :: pyTitleAux false t

def pyTitleCase (s : String) : String := ⟨pyTitleAux false s.data⟩

/-- The page-title cascade of `find_all_page_links` (source lines
675–687): `<title>`, then `og:title`'s content, then the first `<h1>`'s
text, then the last URL path segment de-hyphenated and title-cased.
`""` models a Python falsy (absent) title at each stage. -/
def pageTitle (url : String) (soup : Doc) : String :=
  let t1 := if soup.hasTitleTag then
      (match soup.titleString with
       | some s => pyStrip s
       | none => "")
    else ""
  let t2 := if t1 ≠ "" then t1 else
    (match soup.ogTitleContent with
     | some c => pyStrip c
     | none => "")
  let t3 := if t2 ≠ "" then t2 else
    (match soup.h1Text with
     | some s => s
     | none => "")
  if t3 ≠ "" then t3
  else pyTitleCase ⟨replaceChar '-' ' '
    (lastSegment '/' (pyStripChar '/' (urlparse url).path))⟩

/-- The page-slug computation of `find_all_page_links` (source lines
690–692): `slugify(title)` when the title is truthy, else the last URL
path segment. -/
def pageSlug (url : String) (title : String) : String :=
  let path := pyStripChar '/' (urlparse url).path
  let urlSlug : String := if path ≠ [] then ⟨lastSegment '/' path⟩ else ""
  if title ≠ "" then slugify title else urlSlug

/-- The fetch + parse environment: `fetch_html` composed with
`BeautifulSoup`, abstracted as a pure map from URL to the parsed
document (`none` models a failed fetch). -/
def Web : Type := String → Option Doc

/-- The queue-extension step of `find_all_page_links` (source lines
702–707): links found on the page are appended when neither visited nor
already queued; then the "next" link is appended — without any exclusion
check — when truthy, unvisited, and not queued. -/
def extendQueue (rest found : List String) (visited : List String)
    (next : Option String) : List String :=
  let q1 := rest ++ found.filter (fun u => !visited.contains u && !rest.contains u)
  match next with
  | some nl => if nl ≠ "" ∧ nl ∉ visited ∧ nl ∉ q1 then q1 ++ [nl] else q1
  | none => q1

/-- The `while to_visit and pages < max_pages` loop of
`find_all_page_links` (source lines 660–709).  Each iteration pops the
queue head; an already-visited or excluded URL is skipped; otherwise the
URL is marked visited, counted against the budget, fetched, classified,
recorded, and its discovered links are enqueued. -/
def crawlLoop (web : Web) (maxPages : ℕ) (toVisit visited : List String)
    (allPages : List CrawlPage) (pages : ℕ) : List CrawlPage :=
  if h : pages < maxPages then
    match toVisit with
    | [] => allPages
    | current :: rest =>
      if visited.contains current || shouldExcludeUrl current then
        crawlLoop web maxPages rest visited allPages pages
      else
        let visited' := visited ++ [current]
        match web current with
        | none => crawlLoop web maxPages rest visited' allPages (pages + 1)
        | some soup =>
          let pageType := determinePageType current soup
          let title := pageTitle current soup
          let slug := pageSlug current title
          let allPages' := allPages ++ [⟨current, title, slug, pageType⟩]
          let (found, next) := discoverAllLinksFromPage current soup
          crawlLoop web maxPages (extendQueue rest found visited' next)
            visited' allPages' (pages + 1)
  else allPages
termination_by (maxPages - pages, toVisit.length)
decreasing_by
  · exact Prod.Lex.right _ (Nat.lt_succ_self _)
  · exact Prod.Lex.left _ _ (Nat.sub_succ_lt_self _ _ h)
  · exact Prod.Lex.left _ _ (Nat.sub_succ_lt_self _ _ h)

/-- `find_all_page_links` (source lines 649–709): an unreachable start
URL yields `[]`; otherwise the crawl starts with the queue `[start_url]`,
no visited URLs, no recorded pages, and a zero page count. -/
def findAllPageLinks (web : Web) (startUrl : String) (maxPages : ℕ) :
    List CrawlPage :=
  match web startUrl with
  | none => []
  | some _ => crawlLoop web maxPages [startUrl] [] [] 0

/-! ## JSON model and `parse_ld_json_product` -/

/-- JSON values as `json.loads` returns them.  Numbers are modelled as
integers (no fractional JSON literal takes part in the claims; a
number's only use below is stringification for a comparison with the
word `"product"`, which no numeral equals). -/
inductive Json where
  | null : Json
  | bool (b : Bool) : Json
  | num (n : ℤ) : Json
  | str (s : String) : Json
  | arr (elems : List Json) : Json
  | obj (fields : List (String × Json)) : Json

/-- A parsed JSON object (Python `dict`), as an association list. -/
abbrev JsonObj : Type := List (String × Json)

/-- Python `d.get(k)`, with `Json.null` standing for Python `None`
(both a missing key and an explicit JSON `null` read back as `None`). -/
def jsonGet (o : JsonObj) (k : String) : Json :=
  match o.find? (fun kv => kv.1 = k) with
  | some kv => kv.2
  | none => .null

/-- Python truthiness of a decoded JSON value. -/
def jsonTruthy : Json → Bool
  | .null => false
  | .bool b => b
  | .num n => n ≠ 0
  | .str s => s ≠ ""
  | .arr l => !l.isEmpty
  | .obj o => !o.isEmpty

/-- Python `x or y` on decoded JSON values. -/
def pyOr (a b : Json) : Json := if jsonTruthy a then a else b

/-- Decimal digits of a natural number (`Nat.repr` without going through
`String`), most significant first. -/
def natDigits (n : ℕ) : List Char :=
  if h : n < 10 then [Char.ofNat (n + '0'.toNat)]
  else natDigits (n / 10) ++ [Char.ofNat (n % 10 + '0'.toNat)]
decreasing_by exact Nat.div_lt_self (by omega) (by omega)

/-- Python `str()` of a decoded JSON value.  Strings pass through;
containers are abbreviated (their `repr` starts with a bracket or brace,
so — like every other non-string case — the result never equals the
word `"product"`, the only comparison made with it). -/
def pyStr : Json → String
  | .str s => s
  | .null => "None"
  | .bool true => "True"
  | .bool false => "False"
  | .num n => if n < 0 then ⟨'-' :: natDigits n.natAbs⟩ else ⟨natDigits n.natAbs⟩
  | .arr _ => "[...]"
  | .obj _ => "\x7b...\x7d"

/-- The normalized product record (`@dataclass JsonLdProduct`, source
lines 185–196). -/
structure JsonLdProduct where
  name : Option String := none
  sku : Option String := none
  description_html : Option String := none
  price : Option ℚ := none
  currency : Option String := none
  image : Option String := none
  images : Option (List String) := none
  brand : Option String := none
  barcode : Option String := none
  category_path : Option String := none
deriving Repr, DecidableEq

/-- The candidate-collection loop of `parse_ld_json_product` (source
lines 199–211).  A block is the `json.loads` result of one
`ld+json` script: `none` models a raised parse error or a blank script
(both `continue`); a dict is appended; a list contributes its dict
elements; any other value is dropped. -/
def collectCandidates (blocks : List (Option Json)) : List JsonObj :=
  blocks.foldl
    (fun acc b =>
      match b with
      | some (.obj o) => acc ++ [o]
      | some (.arr l) => acc ++ l.filterMap (fun j => match j with
          | .obj o => some o
          | _ => none)
      | _ => acc)
    []

/-- Does the candidate's own `@type` declare (or include) `Product`?
(The direct checks of source lines 215–222; `node.get("@type") or
node.get("@type".lower())` is `node.get("@type")`, the `or` repeating
the same key.) -/
def hasDirectProductType (node : JsonObj) : Bool :=
  match jsonGet node "@type" with
  | .arr l => l.any (fun i => pyLower (pyStr i) = "product")
  | .str s => pyLower s = "product"
  | _ => false

/-- The first Product-typed dict inside the candidate's `@graph` list,
when any (source lines 223–227). -/
def graphProduct (node : JsonObj) : Option JsonObj :=
  match jsonGet node "@graph" with
  | .arr subs =>
    match subs.find? (fun sub => match sub with
      | .obj o => pyLower (pyStr (jsonGet o "@type")) = "product"
      | _ => false) with
    | some (.obj o) => some o
    | _ => none
  | _ => none

/-- The product-node selection loop of `parse_ld_json_product` (source
lines 213–227).  A direct `@type` match breaks out of the loop; a
`@graph` match only breaks the inner loop, overwriting `product_node`
while the outer scan continues — `fallback` carries that running value. -/
def selectProductNode (fallback : Option JsonObj) : List JsonObj → Option JsonObj
  | [] => fallback
  | node :: rest =>
    if hasDirectProductType node then some node
    else
      match graphProduct node with
      | some sub => selectProductNode (some sub) rest
      | none => selectProductNode fallback rest

/-- The field extraction of `parse_ld_json_product` (source lines
232–294), applied to the selected product node. -/
def extractProductFields (base_url : String) (pn : JsonObj) : JsonLdProduct :=
  let name := jsonGet pn "name"
  let sku := pyOr (jsonGet pn "sku") (jsonGet pn "mpn")
  let description0 := jsonGet pn "description"
  let description :=
    match description0 with
    | .obj o => if (List.find? (fun (kv : String × Json) => kv.1 = "text") o).isSome then jsonGet o "text"
                else description0
    | _ => description0
  let imageVal := jsonGet pn "image"
  let (imageUrl, imageList) : Option String × List String :=
    match imageVal with
    | .arr l =>
      if l.isEmpty then (none, [])
      else
        let ll := l.filterMap (fun j => match j with
          | .str u => some (urljoin base_url u)
          | _ => none)
        (ll.head?, ll)
    | .str s => (some (urljoin base_url s), [urljoin base_url s])
    | _ => (none, [])
  let offers0 := jsonGet pn "offers"
  let offers :=
    match offers0 with
    | .arr (o :: _) => o
    | _ => offers0
  let (priceVal, currency) :=
    match offers with
    | .obj o => (pyOr (pyOr (jsonGet o "price") (jsonGet o "lowPrice")) (jsonGet o "highPrice"),
                 jsonGet o "priceCurrency")
    | _ => (Json.null, Json.null)
  let priceNum :=
    match priceVal with
    | .null => none
    | v => clean_price_to_number (some (pyStr v))
  let brandNode := jsonGet pn "brand"
  let brandName : Option String :=
    match brandNode with
    | .obj o => match jsonGet o "name" with
                | .str s => some s
                | _ => none
    | .str s => some s
    | _ => none
  let barcode := pyOr (pyOr (pyOr (pyOr (jsonGet pn "gtin13") (jsonGet pn "gtin14"))
    (jsonGet pn "gtin12")) (jsonGet pn "gtin8")) (jsonGet pn "isbn")
  let categoryPath : Option String :=
    match jsonGet pn "category" with
    | .str s => some s
    | _ => none
  { name := match name with | .str s => some s | _ => none
    sku := match sku with | .str s => some s | _ => none
    description_html := match description with | .str s => some s | _ => none
    price := priceNum
    currency := match currency with | .str s => some s | _ => none
    image := imageUrl
    images := if imageList = [] then none else some imageList
    brand := brandName
    barcode := if jsonTruthy barcode then some (pyStr barcode) else none
    category_path := categoryPath }

/-- `parse_ld_json_product` (source lines 198–294). -/
def parse_ld_json_product (blocks : List (Option Json)) (base_url : String) :
    JsonLdProduct :=
  match selectProductNode none (collectCandidates blocks) with
  | none => {}
  | some pn => extractProductFields base_url pn

/-! ## Normalizers and the destination index -/

/-- `_normalize_sku` (source lines 170–175): strip, delete all
whitespace, uppercase.  A Python-falsy input gives `""`. -/
def normalizeSku (value : Option String) : String :=
  match value with
  | none => ""
  | some s =>
    if s = "" then ""
    else
      let v := pyStrip s
      let v := v.data.filter (fun c => !isPySpace c)
      pyUpper ⟨v⟩

/-- `_normalize_title` (source lines 177–183): lowercase, replace every
character outside `a-z0-9çğıöşü` and whitespace by a space, collapse
whitespace, strip. -/
def normalizeTitle (value : Option String) : String :=
  match value with
  | none => ""
  | some s =>
    if s = "" then ""
    else
      let v := (pyLower s).data
      let keep : Char → Bool := fun c =>
        isLowerAlnum c || c = 'ç' || c = 'ğ' || c = 'ı' || c = 'ö' || c = 'ş' || c = 'ü'
      let v := v.map (fun c => if keep c || isPySpace c then c else ' ')
      let v := collapseAux isPySpace false v |>.map (fun c => if c = '-' then ' ' else c)
      pyStrip ⟨v⟩

/-- A Python `dict` keyed by strings: an insertion-ordered association
list whose insert overwrites an existing key in place. -/
def dictSet (d : List (String × String)) (k v : String) : List (String × String) :=
  if (d.find? (fun kv => kv.1 = k)).isSome then
    d.map (fun kv => if kv.1 = k then (k, v) else kv)
  else d ++ [(k, v)]

def dictFind (d : List (String × String)) (k : String) : Option String :=
  (d.find? (fun kv => kv.1 = k)).map (fun kv => kv.2)

/-- One row of the optional İkas export, after `fillna("")`: the four
recognized columns as strings. -/
structure IkasRow where
  slug : String
  sku : String
  barkodListesi : String
  isim : String
deriving Repr, DecidableEq

/-- The four lookup structures built from the export (source lines
763–788). -/
structure DestIndex where
  skuToSlug : List (String × String) := []
  barcodeToSlug : List (String × String) := []
  slugSet : List String := []
  titleToSlug : List (String × String) := []
deriving Repr, DecidableEq

/-- The inner loop over one row's semicolon-separated barcode list
(source lines 782–785). -/
def addBarcodes (slug : String) (d : List (String × String)) (barList : String) :
    List (String × String) :=
  (splitOnCharL ';' barList.data).foldl
    (fun d b =>
      let bN := normalizeSku (some ⟨b⟩)
      if bN ≠ "" then dictSet d bN slug else d)
    d

/-- One iteration of the index-construction loop (source lines
775–788): the stripped slug joins the slug set; a nonempty normalized
SKU maps to the slug; each nonempty normalized entry of the
semicolon-separated barcode list maps to the slug; a nonempty
normalized title is appended to the title index. -/
def buildIndexStep (idx : DestIndex) (r : IkasRow) : DestIndex :=
  let slug := pyStrip r.slug
  let slugSet' := if slug ∈ idx.slugSet then idx.slugSet else idx.slugSet ++ [slug]
  let skuN := normalizeSku (some r.sku)
  let sku' := if skuN ≠ "" then dictSet idx.skuToSlug skuN slug else idx.skuToSlug
  let barList := pyStrip r.barkodListesi
  let bar' := if barList ≠ "" then addBarcodes slug idx.barcodeToSlug barList
    else idx.barcodeToSlug
  let titleN := normalizeTitle (some r.isim)
  let title' := if titleN ≠ "" then idx.titleToSlug ++ [(titleN, slug)] else idx.titleToSlug
  { skuToSlug := sku', barcodeToSlug := bar', slugSet := slugSet', titleToSlug := title' }

/-- The index construction over all export rows. -/
def buildIndexes (rows : List IkasRow) : DestIndex :=
  rows.foldl buildIndexStep {}

/-! ## The matcher and the redirect rows -/

/-- The per-page outcome of the matching loop (target path, confidence,
reason, and the extracted normalized SKU/barcode; source lines
800–845). -/
structure MatchResult where
  targetPath : String
  confidence : ℚ
  reason : String
  sku : String
  barcode : String
deriving Repr, DecidableEq

/-- The per-page matching step of the redirect-building loop (source
lines 800–845).  For a product page the page is re-fetched and its
SKU/barcode extracted (`fetched = none` models a failed fetch or a
raised exception — both leave the two fields empty; `some (s, b)` gives
`find_sku`'s and `find_barcode`'s results); matching tries the SKU
index, then the barcode index, else leaves the page unmatched.
Category, blog and static pages get template paths.  The title index
`idx.titleToSlug` is in scope and never consulted. -/
def matchPage (idx : DestIndex) (page : CrawlPage)
    (fetched : Option (Option String × Option String)) : MatchResult :=
  let (sku, barcode) :=
    if page.type = "product" then
      match fetched with
      | some (fs, fb) => (normalizeSku (some (fs.getD "")), normalizeSku (some (fb.getD "")))
      | none => ("", "")
    else ("", "")
  if page.type = "product" then
    if sku ≠ "" ∧ (dictFind idx.skuToSlug sku).isSome then
      { targetPath := "/urun/" ++ (dictFind idx.skuToSlug sku).getD "",
        confidence := 1, reason := "sku", sku := sku, barcode := barcode }
    else if barcode ≠ "" ∧ (dictFind idx.barcodeToSlug barcode).isSome then
      { targetPath := "/urun/" ++ (dictFind idx.barcodeToSlug barcode).getD "",
        confidence := mkRat 98 100, reason := "barcode", sku := sku, barcode := barcode }
    else
      { targetPath := "", confidence := 0, reason := "unmatched",
        sku := sku, barcode := barcode }
  else if page.type = "category" then
    { targetPath := "/" ++ page.slug, confidence := 0, reason := "category",
      sku := sku, barcode := barcode }
  else if page.type = "blog" then
    { targetPath := "/blog/" ++ page.slug, confidence := 0, reason := "blog",
      sku := sku, barcode := barcode }
  else if page.type = "page" then
    { targetPath := "/pages/" ++ page.slug, confidence := 0, reason := "page",
      sku := sku, barcode := barcode }
  else
    { targetPath := "", confidence := 0, reason := "non_product",
      sku := sku, barcode := barcode }

/-- One entry of `redirects_rows` (source lines 878–886). -/
structure RedirectRow where
  from_url : String
  to_url : String
  from_slug : String
  to_slug : String
  title : String
  sku : String
  type : String
deriving Repr, DecidableEq

/-- The slug computations and row assembly of the redirect loop (source
lines 862–886). -/
def buildRedirectRow (page : CrawlPage) (m : MatchResult) : RedirectRow :=
  let fromPath : String := ⟨(urlparse page.url).path⟩
  let fromPath := if isPrefixL ['/'] fromPath.data then fromPath else "/" ++ fromPath
  let fromSlug : String :=
    if fromPath ≠ "" then ⟨lastSegment '/' (pyStripChar '/' fromPath.data)⟩ else ""
  let toPath : String := if m.targetPath ≠ "" then ⟨(urlparse m.targetPath).path⟩ else ""
  let toPath := if isPrefixL ['/'] toPath.data then toPath
    else if toPath ≠ "" then "/" ++ toPath else ""
  let toSlug : String :=
    if toPath ≠ "" then ⟨lastSegment '/' (pyStripChar '/' toPath.data)⟩ else ""
  { from_url := page.url, to_url := m.targetPath, from_slug := fromSlug,
    to_slug := toSlug, title := page.title, sku := m.sku, type := page.type }

/-- One row of the generated `ikas_301.csv` (source lines 923–929). -/
structure Ikas301Row where
  id : String
  kaynakAdres : String
  yonlendirilecekAdres : String
  gecici302 : String
  silindiMi : String
deriving Repr, DecidableEq

/-- The per-row İkas-format conversion (source lines 905–929): the
`Kaynak Adres` column prefers the full path of `from_url`, falling back
to the slash-prefixed `from_slug`; the `Yönlendirilecek Adres` column is
the slash-prefixed `to_slug`; `ID` is empty and the two flag columns are
the literal `"false"`. -/
def ikas301Row (r : RedirectRow) : Ikas301Row :=
  let path : String := if r.from_url ≠ "" then ⟨(urlparse r.from_url).path⟩ else ""
  let kaynak :=
    if path ≠ "" then
      (if isPrefixL ['/'] path.data then path else "/" ++ path)
    else
      let s := r.from_slug
      if s ≠ "" ∧ ¬isPrefixL ['/'] s.data then "/" ++ s else s
  let yon :=
    let s := r.to_slug
    if s ≠ "" ∧ ¬isPrefixL ['/'] s.data then "/" ++ s else s
  { id := "", kaynakAdres := kaynak, yonlendirilecekAdres := yon,
    gecici302 := "false", silindiMi := "false" }

/-! ## Claim-side auxiliary definitions -/

/-- The exclusion patterns named by the crawl-exclusion claim (a subset
of `excludePatterns`). -/
def claimPatterns : List String :=
  ["/checkout", "/sepet", "/login", "/api/", ".json", ".xml", ".rss"]

/-- Modelled from the spec: the candidate pool "including one level of
`@graph` nesting" in document order, i.e. each collected candidate
followed by its `@graph` dict children. -/
def specCandidatePool (cands : List JsonObj) : List JsonObj :=
  cands.foldl
    (fun acc n =>
      acc ++ [n] ++
        (match jsonGet n "@graph" with
         | .arr subs => subs.filterMap (fun s => match s with
             | .obj o => some o
             | _ => none)
         | _ => []))
    []

/-- Modelled from the spec: "selects the first candidate whose declared
type is (or includes) Product", over the spec's candidate pool; "no
later candidate overrides an earlier Product-typed one". -/
def specFirstProductNode (cands : List JsonObj) : Option JsonObj :=
  (specCandidatePool cands).find? hasDirectProductType

/-- The "running `product_node`" of the selection loop described as a
fold: each `@graph` hit overwrites the accumulator. -/
def lastGraphProduct (fallback : Option JsonObj) (cands : List JsonObj) :
    Option JsonObj :=
  cands.foldl
    (fun acc n =>
      match graphProduct n with
      | some g => some g
      | none => acc)
    fallback

/-- No two adjacent hyphens. -/
def noDoubleHyphen : List Char → Bool
  | a :: b :: t => (!(a = '-' && b = '-')) && noDoubleHyphen (b :: t)
  | _ => true

/-- The slug shape asserted by the spec: only lowercase alphanumerics
and hyphens, with no leading, trailing, or doubled hyphen. -/
def goodSlug (s : String) : Prop :=
  (∀ c ∈ s.data, isLowerAlnum c = true ∨ c = '-') ∧
  (∀ c, s.data.head? = some c → c ≠ '-') ∧
  (∀ c, s.data.getLast? = some c → c ≠ '-') ∧
  noDoubleHyphen s.data = true

/-! ## Shared lemmas -/

theorem hasInfixL_nil (pat : List Char) :
    hasInfixL [] pat = (isPrefixL pat [] || false) := rfl

theorem hasInfixL_cons (a : Char) (t pat : List Char) :
    hasInfixL (a :: t) pat = (isPrefixL pat (a :: t) || hasInfixL t pat) := rfl

theorem hasInfixL_singleton {l : List Char} {c : Char} :
    hasInfixL l [c] = true ↔ c ∈ l := by
  induction l with
  | nil => simp [hasInfixL_nil, isPrefixL]
  | cons a t ih =>
    simp only [hasInfixL_cons, isPrefixL, Bool.or_eq_true, ih]
    simp [eq_comm]

theorem countChar_one_mem {l : List Char} {c : Char}
    (h : countChar c l = 1) : c ∈ l := by
  unfold countChar at h
  have hne : l.filter (fun x => x = c) ≠ [] := by
    intro hnil
    rw [hnil] at h
    simp at h
  obtain ⟨x, hx⟩ := List.exists_mem_of_ne_nil _ hne
  have := List.mem_filter.mp hx
  simp only [decide_eq_true_eq] at this
  exact this.2 ▸ this.1

/-- C2: `clean_price_to_number` parses the three spec examples to
`1234.56`, `19.99` and `1234`; and in the separator-normalization step,
a lone comma with a 1–2-digit tail and no dot becomes the decimal
point, otherwise commas are deleted as thousands separators, while a
comma and a dot together delete the dots and make the comma the decimal
point. -/
theorem price_parsing :
    clean_price_to_number (some "1.234,56 TL") = some (1234.56 : ℚ) ∧
    clean_price_to_number (some "19,99") = some (19.99 : ℚ) ∧
    clean_price_to_number (some "1,234") = some (1234 : ℚ) ∧
    (∀ l : List Char,
      (countChar ',' l = 1 → hasInfixL l ['.'] = false →
        (lastSegment ',' l).all isDigitChar = true →
        ((lastSegment ',' l).length = 1 ∨ (lastSegment ',' l).length = 2) →
        sepNormalize l = replaceChar ',' '.' l) ∧
      (hasInfixL l ['.'] = false →
        ¬(countChar ',' l = 1 ∧
            ((lastSegment ',' l).length = 1 ∨ (lastSegment ',' l).length = 2)) →
        sepNormalize l = eraseChar ',' l) ∧
      (hasInfixL l [','] = true → hasInfixL l ['.'] = true →
        sepNormalize l = replaceChar ',' '.' (eraseChar '.' l))) := by
  refine ⟨?_, ?_, ?_, ?_⟩
  · have h : clean_price_to_number (some "1.234,56 TL") = some (mkRat 123456 100) := by decide
    rw [h]; norm_num [Rat.mkRat_eq_div]
  · have h : clean_price_to_number (some "19,99") = some (mkRat 1999 100) := by decide
    rw [h]; norm_num [Rat.mkRat_eq_div]
  · decide
  · intro l
    refine ⟨?_, ?_, ?_⟩
    · intro hcount hdot hdigits hlen
      have hmem : hasInfixL l [','] = true := hasInfixL_singleton.mpr (countChar_one_mem hcount)
      unfold sepNormalize
      rw [if_neg (by simp [hdot]), if_pos (by simp [hmem, hcount, hlen])]
    · intro hdot hnot
      unfold sepNormalize
      rw [if_neg (by simp [hdot]), if_neg ?_]
      rintro ⟨-, hc, hl⟩
      exact hnot ⟨hc, hl⟩
    · intro hcomma hdot
      unfold sepNormalize
      rw [if_pos (by simp [hcomma, hdot])]

/-- Witness for C2's general separator rule at concrete inputs. -/
theorem price_parsing_witness :
    sepNormalize "12,5".data = replaceChar ',' '.' "12,5".data ∧
    sepNormalize "1,234".data = eraseChar ',' "1,234".data ∧
    sepNormalize "1.234,56".data = replaceChar ',' '.' (eraseChar '.' "1.234,56".data) :=
  ⟨(price_parsing.2.2.2 "12,5".data).1 (by decide) (by decide) (by decide) (by decide),
   (price_parsing.2.2.2 "1,234".data).2.1 (by decide) (by decide),
   (price_parsing.2.2.2 "1.234,56".data).2.2 (by decide) (by decide)⟩

/-! ## Lemmas about run collapsing and stripping (for `slugify`) -/

theorem collapseAux_nil (p : Char → Bool) (flag : Bool) : collapseAux p flag [] = [] := by
  cases flag <;> rfl

theorem collapseAux_true_cons (p : Char → Bool) (a : Char) (t : List Char) :
    collapseAux p true (a :: t) =
      if p a then collapseAux p true t else a :: collapseAux p false t := rfl

theorem collapseAux_false_cons (p : Char → Bool) (a : Char) (t : List Char) :
    collapseAux p false (a :: t) =
      if p a then '-' :: collapseAux p true t else a :: collapseAux p false t := rfl

theorem mem_collapseAux {p : Char → Bool} {c : Char} :
    ∀ {l : List Char} {flag : Bool}, c ∈ collapseAux p flag l →
      c = '-' ∨ (c ∈ l ∧ p c = false) := by
  intro l
  induction l with
  | nil => intro flag h; rw [collapseAux_nil] at h; simp at h
  | cons a t ih =>
    intro flag h
    cases flag
    · rw [collapseAux_false_cons] at h
      by_cases hpa : p a
      · rw [if_pos hpa] at h
        rcases List.mem_cons.mp h with h | h
        · exact Or.inl h
        · rcases ih h with h | ⟨h1, h2⟩
          · exact Or.inl h
          · exact Or.inr ⟨List.mem_cons_of_mem _ h1, h2⟩
      · rw [if_neg hpa] at h
        rcases List.mem_cons.mp h with h | h
        · subst h; exact Or.inr ⟨List.mem_cons_self _ _, by simpa using hpa⟩
        · rcases ih h with h | ⟨h1, h2⟩
          · exact Or.inl h
          · exact Or.inr ⟨List.mem_cons_of_mem _ h1, h2⟩
    · rw [collapseAux_true_cons] at h
      by_cases hpa : p a
      · rw [if_pos hpa] at h
        rcases ih h with h | ⟨h1, h2⟩
        · exact Or.inl h
        · exact Or.inr ⟨List.mem_cons_of_mem _ h1, h2⟩
      · rw [if_neg hpa] at h
        rcases List.mem_cons.mp h with h | h
        · subst h; exact Or.inr ⟨List.mem_cons_self _ _, by simpa using hpa⟩
        · rcases ih h with h | ⟨h1, h2⟩
          · exact Or.inl h
          · exact Or.inr ⟨List.mem_cons_of_mem _ h1, h2⟩

theorem head?_collapseAux_true {p : Char → Bool} :
    ∀ {l : List Char} {c : Char}, (collapseAux p true l).head? = some c → p c = false := by
  intro l
  induction l with
  | nil => intro c h; rw [collapseAux_nil] at h; simp at h
  | cons a t ih =>
    intro c h
    rw [collapseAux_true_cons] at h
    by_cases hpa : p a
    · rw [if_pos hpa] at h; exact ih h
    · rw [if_neg hpa] at h
      simp only [List.head?_cons, Option.some.injEq] at h
      subst h; simpa using hpa

theorem noDoubleHyphen_cons_cons (a b : Char) (t : List Char) :
    noDoubleHyphen (a :: b :: t) = ((!(a = '-' && b = '-')) && noDoubleHyphen (b :: t)) := rfl

theorem noDoubleHyphen_tail {a : Char} {l : List Char}
    (h : noDoubleHyphen (a :: l) = true) : noDoubleHyphen l = true := by
  cases l with
  | nil => rfl
  | cons b t => exact (Bool.and_eq_true .. ▸ h).2

theorem noDoubleHyphen_collapseAux {p : Char → Bool} (hp : p '-' = true) :
    ∀ {l : List Char} {flag : Bool}, noDoubleHyphen (collapseAux p flag l) = true := by
  intro l
  induction l with
  | nil => intro flag; rw [collapseAux_nil]; rfl
  | cons a t ih =>
    intro flag
    have hcons : ∀ x : Char, x ≠ '-' → ∀ r : List Char, noDoubleHyphen r = true →
        noDoubleHyphen (x :: r) = true := by
      intro x hx r hr
      cases r with
      | nil => rfl
      | cons b rt =>
        rw [noDoubleHyphen_cons_cons]
        simp only [Bool.and_eq_true, Bool.not_eq_true']
        exact ⟨by simp [hx], hr⟩
    cases flag
    · rw [collapseAux_false_cons]
      by_cases hpa : p a
      · rw [if_pos hpa]
        cases hc : collapseAux p true t with
        | nil => rfl
        | cons b rt =>
          have hb : p b = false := head?_collapseAux_true (by rw [hc]; rfl)
          have hbne : b ≠ '-' := fun hbe => by rw [hbe, hp] at hb; exact Bool.false_ne_true hb.symm
          rw [noDoubleHyphen_cons_cons]
          simp only [Bool.and_eq_true, Bool.not_eq_true']
          refine ⟨by simp [hbne], ?_⟩
          rw [← hc]; exact ih
      · rw [if_neg hpa]
        refine hcons a (fun hae => by rw [hae, hp] at hpa; exact hpa rfl) _ ih
    · rw [collapseAux_true_cons]
      by_cases hpa : p a
      · rw [if_pos hpa]; exact ih
      · rw [if_neg hpa]
        refine hcons a (fun hae => by rw [hae, hp] at hpa; exact hpa rfl) _ ih

theorem collapseAux_true_eq_false {l : List Char}
    (h : ∀ c, l.head? = some c → c ≠ '-') :
    collapseAux (fun c => c = '-') true l = collapseAux (fun c => c = '-') false l := by
  cases l with
  | nil => rfl
  | cons a t =>
    have ha : a ≠ '-' := h a rfl
    rw [collapseAux_true_cons, collapseAux_false_cons, if_neg (by simpa using ha),
      if_neg (by simpa using ha)]

theorem collapseAux_eq_self {l : List Char}
    (h : noDoubleHyphen l = true) :
    collapseAux (fun c => c = '-') false l = l := by
  induction l with
  | nil => rfl
  | cons a t ih =>
    by_cases ha : a = '-'
    · subst ha
      rw [collapseAux_false_cons, if_pos (by simp)]
      have hhd : ∀ c, t.head? = some c → c ≠ '-' := by
        intro c hc he
        subst he
        cases t with
        | nil => simp at hc
        | cons b rt =>
          simp only [List.head?_cons, Option.some.injEq] at hc
          subst hc
          rw [noDoubleHyphen_cons_cons] at h
          simp at h
      rw [collapseAux_true_eq_false hhd, ih (noDoubleHyphen_tail h)]
    · rw [collapseAux_false_cons, if_neg (by simpa using ha), ih (noDoubleHyphen_tail h)]

theorem noDoubleHyphen_append_right {xs ys : List Char}
    (h : noDoubleHyphen (xs ++ ys) = true) : noDoubleHyphen ys = true := by
  induction xs with
  | nil => exact h
  | cons x xs ih => exact ih (noDoubleHyphen_tail h)

theorem noDoubleHyphen_append_left {xs ys : List Char}
    (h : noDoubleHyphen (xs ++ ys) = true) : noDoubleHyphen xs = true := by
  induction xs with
  | nil => rfl
  | cons x xs ih =>
    cases xs with
    | nil => rfl
    | cons y xs' =>
      rw [noDoubleHyphen_cons_cons]
      rw [List.cons_append, List.cons_append, noDoubleHyphen_cons_cons] at h
      rcases Bool.and_eq_true .. ▸ h with ⟨h1, h2⟩
      exact Bool.and_eq_true .. ▸ ⟨h1, ih h2⟩

theorem head?_dropWhile {p : Char → Bool} :
    ∀ {l : List Char} {c : Char}, (l.dropWhile p).head? = some c → p c = false := by
  intro l
  induction l with
  | nil => intro c h; simp at h
  | cons a t ih =>
    intro c h
    rw [List.dropWhile_cons] at h
    by_cases hpa : p a
    · rw [if_pos hpa] at h; exact ih h
    · rw [if_neg hpa] at h
      simp only [List.head?_cons, Option.some.injEq] at h
      subst h; simpa using hpa

theorem dropWhileEnd_append (p : Char → Bool) (l : List Char) :
    ∃ ys, l = dropWhileEnd p l ++ ys := by
  refine ⟨(l.reverse.takeWhile p).reverse, ?_⟩
  unfold dropWhileEnd
  conv_lhs => rw [← l.reverse_reverse, ← List.takeWhile_append_dropWhile p l.reverse]
  rw [List.reverse_append]

theorem getLast?_dropWhileEnd {p : Char → Bool} {l : List Char} {c : Char}
    (h : (dropWhileEnd p l).getLast? = some c) : p c = false := by
  unfold dropWhileEnd at h
  rw [List.getLast?_reverse] at h
  exact head?_dropWhile h

theorem dropWhile_suffix_decomp (p : Char → Bool) (l : List Char) :
    ∃ xs, l = xs ++ l.dropWhile p :=
  ⟨l.takeWhile p, (List.takeWhile_append_dropWhile p l).symm⟩

/-! ## C5: `slugify` -/

/-- C5 counterexample: `slugify "Örnek Ürün Adı!"` is not
`"ornek-urun-adi"` — the dotless `ı` has no decomposition to an ASCII
base letter and is dropped, so the result is `"ornek-urun-ad"`. -/
theorem slugify_dotless_i_dropped :
    slugify "Örnek Ürün Adı!" ≠ "ornek-urun-adi" ∧
    slugify "Örnek Ürün Adı!" = "ornek-urun-ad" := by
  constructor
  · decide
  · decide

/-- C5 (amended): `slugify "Örnek Ürün Adı!" = "ornek-urun-ad"` (the
`ı` is dropped by the ASCII fold), and slug generation always yields
only lowercase alphanumerics and hyphens with no leading, trailing, or
doubled hyphen. -/
theorem slugify_folds_and_collapses :
    slugify "Örnek Ürün Adı!" = "ornek-urun-ad" ∧
    ∀ s : String, goodSlug (slugify s) := by
  refine ⟨by decide, ?_⟩
  intro s
  unfold slugify
  by_cases hs : s = ""
  · rw [if_pos hs]
    exact ⟨by intro c hc; simp at hc, by intro c hc; simp at hc,
      by intro c hc; simp at hc, rfl⟩
  · rw [if_neg hs]
    show goodSlug ⟨collapseRuns (fun c => c = '-') (pyStripChar '-'
      (collapseRuns (fun c => !isLowerAlnum c)
        (((s.data.map asciiFold).foldr (· ++ ·) []).map pyLowerChar)))⟩
    set lowered := ((s.data.map asciiFold).foldr (· ++ ·) []).map pyLowerChar with hlow
    set collapsed := collapseRuns (fun c => !isLowerAlnum c) lowered with hcol
    set stripped := pyStripChar '-' collapsed with hstr
    have hcolND : noDoubleHyphen collapsed = true :=
      @noDoubleHyphen_collapseAux (fun c => !isLowerAlnum c) (by decide) lowered false
    obtain ⟨xs, hxs⟩ : ∃ xs, collapsed = xs ++ collapsed.dropWhile (fun c => c = '-') :=
      dropWhile_suffix_decomp _ _
    obtain ⟨ys, hys⟩ : ∃ ys, collapsed.dropWhile (fun c => c = '-') =
        stripped ++ ys := by
      rw [hstr]; unfold pyStripChar
      exact dropWhileEnd_append _ _
    have hstrippedND : noDoubleHyphen stripped = true := by
      have h1 : noDoubleHyphen (collapsed.dropWhile (fun c => c = '-')) = true :=
        @noDoubleHyphen_append_right xs _ (by rw [← hxs]; exact hcolND)
      exact @noDoubleHyphen_append_left _ ys (by rw [← hys]; exact h1)
    have hfinal : collapseRuns (fun c => c = '-') stripped = stripped := by
      unfold collapseRuns
      exact collapseAux_eq_self hstrippedND
    rw [hfinal]
    refine ⟨?_, ?_, ?_, ?_⟩
    · intro c hc
      simp only [String.data] at hc
      have hc1 : c ∈ collapsed.dropWhile (fun c => c = '-') := by
        rw [hys]; exact List.mem_append_left _ hc
      have hc2 : c ∈ collapsed := by
        rw [hxs]; exact List.mem_append_right _ hc1
      rcases mem_collapseAux hc2 with h | ⟨-, h⟩
      · exact Or.inr h
      · simp only [Bool.not_eq_false'] at h
        exact Or.inl h
    · intro c hc
      simp only [String.data] at hc
      have : (collapsed.dropWhile (fun c => c = '-')).head? = some c := by
        rw [hys]
        cases hstp : stripped with
        | nil => rw [hstp] at hc; simp at hc
        | cons a t =>
          rw [hstp] at hc
          simp only [List.head?_cons, Option.some.injEq] at hc
          subst hc
          simp
      intro he
      have := head?_dropWhile this
      rw [he] at this
      simp at this
    · intro c hc
      simp only [String.data] at hc
      have : (dropWhileEnd (fun c => c = '-')
          (collapsed.dropWhile (fun c => c = '-'))).getLast? = some c := by
        rw [hstr] at hc; exact hc
      intro he
      have := getLast?_dropWhileEnd this
      rw [he] at this
      simp at this
    · exact hstrippedND

/-! ## C1: matcher priority -/

theorem dictFind_empty_dictSet {d : List (String × String)} {k v : String}
    (hd : dictFind d "" = none) (hk : k ≠ "") :
    dictFind (dictSet d k v) "" = none := by
  unfold dictFind at hd ⊢
  rw [Option.map_eq_none'] at hd ⊢
  rw [List.find?_eq_none] at hd ⊢
  intro x hx
  unfold dictSet at hx
  by_cases hex : (List.find? (fun kv => kv.1 = k) d).isSome
  · rw [if_pos hex] at hx
    obtain ⟨kv, hkv, rfl⟩ := List.mem_map.mp hx
    by_cases h1 : kv.1 = k
    · simp only [if_pos h1]
      simpa using hk
    · simp only [if_neg h1]
      exact hd kv hkv
  · rw [if_neg hex] at hx
    rcases List.mem_append.mp hx with h | h
    · exact hd x h
    · simp only [List.mem_singleton] at h
      subst h
      simpa using hk

theorem addBarcodes_empty_key {slug : String} {d : List (String × String)}
    {barList : String} (hd : dictFind d "" = none) :
    dictFind (addBarcodes slug d barList) "" = none := by
  unfold addBarcodes
  generalize splitOnCharL ';' barList.data = segs
  induction segs generalizing d with
  | nil => exact hd
  | cons b t ih =>
    rw [List.foldl_cons]
    apply ih
    by_cases hb : normalizeSku (some ⟨b⟩) ≠ ""
    · simp only [if_pos hb]
      exact dictFind_empty_dictSet hd hb
    · simp only [if_neg hb]
      exact hd

theorem buildIndexes_no_empty_key (rows : List IkasRow) :
    dictFind (buildIndexes rows).skuToSlug "" = none ∧
    dictFind (buildIndexes rows).barcodeToSlug "" = none := by
  unfold buildIndexes
  have main : ∀ (rs : List IkasRow) (idx : DestIndex),
      dictFind idx.skuToSlug "" = none → dictFind idx.barcodeToSlug "" = none →
      dictFind (rs.foldl buildIndexStep idx).skuToSlug "" = none ∧
      dictFind (rs.foldl buildIndexStep idx).barcodeToSlug "" = none := by
    intro rs
    induction rs with
    | nil => intro idx h1 h2; exact ⟨h1, h2⟩
    | cons r rt ih =>
      intro idx h1 h2
      rw [List.foldl_cons]
      apply ih
      · show dictFind (buildIndexStep idx r).skuToSlug "" = none
        unfold buildIndexStep
        by_cases hk : normalizeSku (some r.sku) ≠ ""
        · simp only [if_pos hk]
          exact dictFind_empty_dictSet h1 hk
        · simp only [if_neg hk]
          exact h1
      · show dictFind (buildIndexStep idx r).barcodeToSlug "" = none
        unfold buildIndexStep
        by_cases hb : pyStrip r.barkodListesi ≠ ""
        · simp only [if_pos hb]
          exact addBarcodes_empty_key h2
        · simp only [if_neg hb]
          exact h2
  exact main rows {} rfl rfl

/-- C1: for a crawled product page, the matcher tries the SKU index
first — a hit gives confidence 1.0 and reason `"sku"` regardless of the
barcode — then the barcode index (confidence 0.98, reason
`"barcode"`), and otherwise leaves the page unmatched with an empty
target path, confidence 0.0 and reason `"unmatched"`. -/
theorem sku_barcode_priority (rows : List IkasRow) (page : CrawlPage)
    (fs fb : Option String) (idx : DestIndex) (nsku nbar : String) (m : MatchResult)
    (hp : page.type = "product")
    (hidx : idx = buildIndexes rows)
    (hns : nsku = normalizeSku (some (fs.getD "")))
    (hnb : nbar = normalizeSku (some (fb.getD "")))
    (hm : m = matchPage idx page (some (fs, fb))) :
    ((dictFind idx.skuToSlug nsku).isSome →
        m.confidence = 1 ∧ m.reason = "sku" ∧
        m.targetPath = "/urun/" ++ (dictFind idx.skuToSlug nsku).getD "") ∧
    (dictFind idx.skuToSlug nsku = none → (dictFind idx.barcodeToSlug nbar).isSome →
        m.confidence = (0.98 : ℚ) ∧ m.reason = "barcode" ∧
        m.targetPath = "/urun/" ++ (dictFind idx.barcodeToSlug nbar).getD "") ∧
    (dictFind idx.skuToSlug nsku = none → dictFind idx.barcodeToSlug nbar = none →
        m.targetPath = "" ∧ m.confidence = 0 ∧ m.reason = "unmatched") := by
  subst hidx hns hnb hm
  refine ⟨?_, ?_, ?_⟩
  · intro hsome
    have hne : normalizeSku (some (fs.getD "")) ≠ "" := by
      intro he
      rw [he, (buildIndexes_no_empty_key rows).1] at hsome
      simp at hsome
    obtain ⟨v, hv⟩ := Option.isSome_iff_exists.mp hsome
    simp [matchPage, hp, hne, hv]
  · intro hnone hsome
    have hne : normalizeSku (some (fb.getD "")) ≠ "" := by
      intro he
      rw [he, (buildIndexes_no_empty_key rows).2] at hsome
      simp at hsome
    obtain ⟨v, hv⟩ := Option.isSome_iff_exists.mp hsome
    have h98 : (mkRat 98 100 : ℚ) = (0.98 : ℚ) := by
      norm_num [Rat.mkRat_eq_div]
    simp [matchPage, hp, hne, hv, hnone, h98]
  · intro hn1 hn2
    simp [matchPage, hp, hn1, hn2]

/-- Witness for C1 at a concrete export and page where both the SKU and
the barcode match: the SKU wins. -/
theorem sku_barcode_priority_witness :
    (dictFind (buildIndexes [⟨"my-slug", "abc-1", "869001", ""⟩]).skuToSlug
        (normalizeSku (some "ABC-1 "))).isSome = true ∧
    (dictFind (buildIndexes [⟨"my-slug", "abc-1", "869001", ""⟩]).barcodeToSlug
        (normalizeSku (some "869001"))).isSome = true ∧
    (matchPage (buildIndexes [⟨"my-slug", "abc-1", "869001", ""⟩])
        ⟨"http://a.com/urun-x", "T", "t", "product"⟩
        (some (some "ABC-1 ", some "869001"))).confidence = 1 ∧
    (matchPage (buildIndexes [⟨"my-slug", "abc-1", "869001", ""⟩])
        ⟨"http://a.com/urun-x", "T", "t", "product"⟩
        (some (some "ABC-1 ", some "869001"))).reason = "sku" := by
  refine ⟨by decide, by decide, ?_, ?_⟩
  · exact ((sku_barcode_priority [⟨"my-slug", "abc-1", "869001", ""⟩]
      ⟨"http://a.com/urun-x", "T", "t", "product"⟩ (some "ABC-1 ") (some "869001")
      _ _ _ _ rfl rfl rfl rfl rfl) |>.1 (by decide)).1
  · exact ((sku_barcode_priority [⟨"my-slug", "abc-1", "869001", ""⟩]
      ⟨"http://a.com/urun-x", "T", "t", "product"⟩ (some "ABC-1 ") (some "869001")
      _ _ _ _ rfl rfl rfl rfl rfl) |>.1 (by decide)).2.1

/-! ## C9: the fuzzy title index is never consulted -/

/-- C9: the matcher's output is independent of the `(normalized title,
slug)` index — two destination indexes agreeing on the SKU and barcode
maps (and slug set) produce identical match results for every page,
even though the title index is built from the export (second
conjunct). -/
theorem matcher_ignores_title_index :
    (∀ (s b : List (String × String)) (ss : List String)
       (t₁ t₂ : List (String × String)) (page : CrawlPage)
       (fetched : Option (Option String × Option String)),
      matchPage ⟨s, b, ss, t₁⟩ page fetched = matchPage ⟨s, b, ss, t₂⟩ page fetched) ∧
    (buildIndexes [⟨"my-slug", "", "", "Güzel Ürün"⟩]).titleToSlug =
      [(normalizeTitle (some "Güzel Ürün"), "my-slug")] := by
  constructor
  · intro s b ss t₁ t₂ page fetched
    rfl
  · decide

/-! ## C10: page types and diagnostic reasons -/

/-- C10: `_determine_page_type` always returns one of `"product"`,
`"blog"`, `"category"`, `"page"`, so for crawler-produced pages the
matcher's final `"non_product"` branch is unreachable and every
diagnostic reason is one of `sku`, `barcode`, `unmatched`, `category`,
`blog`, `page`. -/
theorem page_type_total_reasons :
    (∀ (url : String) (soup : Doc),
      determinePageType url soup ∈ ["product", "blog", "category", "page"]) ∧
    (∀ (idx : DestIndex) (url title slug : String) (soup : Doc)
       (fetched : Option (Option String × Option String)),
      (matchPage idx ⟨url, title, slug, determinePageType url soup⟩ fetched).reason ∈
        ["sku", "barcode", "unmatched", "category", "blog", "page"]) := by
  have htype : ∀ (url : String) (soup : Doc),
      determinePageType url soup ∈ ["product", "blog", "category", "page"] := by
    intro url soup
    simp only [determinePageType]
    repeat' split
    all_goals simp
  refine ⟨htype, ?_⟩
  intro idx url title slug soup fetched
  have ht := htype url soup
  simp only [List.mem_cons, List.not_mem_nil, or_false] at ht
  rcases ht with h | h | h | h
  · rw [show (⟨url, title, slug, determinePageType url soup⟩ : CrawlPage) =
      ⟨url, title, slug, "product"⟩ by rw [h]]
    simp only [matchPage]
    repeat' split
    all_goals simp_all
  · rw [show (⟨url, title, slug, determinePageType url soup⟩ : CrawlPage) =
      ⟨url, title, slug, "blog"⟩ by rw [h]]
    simp [matchPage]
  · rw [show (⟨url, title, slug, determinePageType url soup⟩ : CrawlPage) =
      ⟨url, title, slug, "category"⟩ by rw [h]]
    simp [matchPage]
  · rw [show (⟨url, title, slug, determinePageType url soup⟩ : CrawlPage) =
      ⟨url, title, slug, "page"⟩ by rw [h]]
    simp [matchPage]

/-! ## C3: crawl budget and partial results -/

theorem crawlLoop_stop {web : Web} {maxPages : ℕ} {q v : List String}
    {acc : List CrawlPage} {pages : ℕ} (h : ¬pages < maxPages) :
    crawlLoop web maxPages q v acc pages = acc := by
  rw [crawlLoop.eq_def, dif_neg h]

theorem crawlLoop_nil {web : Web} {maxPages : ℕ} {v : List String}
    {acc : List CrawlPage} {pages : ℕ} (h : pages < maxPages) :
    crawlLoop web maxPages [] v acc pages = acc := by
  rw [crawlLoop.eq_def, dif_pos h]

theorem crawlLoop_skip {web : Web} {maxPages : ℕ} {current : String}
    {rest v : List String} {acc : List CrawlPage} {pages : ℕ}
    (h : pages < maxPages) (hc : (v.contains current || shouldExcludeUrl current) = true) :
    crawlLoop web maxPages (current :: rest) v acc pages =
      crawlLoop web maxPages rest v acc pages := by
  rw [crawlLoop.eq_def, dif_pos h]
  simp only [hc, if_true]

theorem crawlLoop_fetchfail {web : Web} {maxPages : ℕ} {current : String}
    {rest v : List String} {acc : List CrawlPage} {pages : ℕ}
    (h : pages < maxPages) (hc : ¬(v.contains current || shouldExcludeUrl current) = true)
    (hw : web current = none) :
    crawlLoop web maxPages (current :: rest) v acc pages =
      crawlLoop web maxPages rest (v ++ [current]) acc (pages + 1) := by
  rw [crawlLoop.eq_def, dif_pos h]
  simp only [Bool.not_eq_true] at hc
  simp only [hc, hw]
  simp

theorem crawlLoop_visit {web : Web} {maxPages : ℕ} {current : String}
    {rest v : List String} {acc : List CrawlPage} {pages : ℕ} {soup : Doc}
    (h : pages < maxPages) (hc : ¬(v.contains current || shouldExcludeUrl current) = true)
    (hw : web current = some soup) :
    crawlLoop web maxPages (current :: rest) v acc pages =
      crawlLoop web maxPages
        (extendQueue rest (discoverAllLinksFromPage current soup).1 (v ++ [current])
          (discoverAllLinksFromPage current soup).2)
        (v ++ [current])
        (acc ++ [CrawlPage.mk current (pageTitle current soup)
          (pageSlug current (pageTitle current soup)) (determinePageType current soup)])
        (pages + 1) := by
  rw [crawlLoop.eq_def, dif_pos h]
  simp only [Bool.not_eq_true] at hc
  simp only [hc, hw]
  simp

theorem crawlLoop_length_le (web : Web) (maxPages : ℕ) :
    ∀ (q v : List String) (acc : List CrawlPage) (pages : ℕ),
      (crawlLoop web maxPages q v acc pages).length ≤ acc.length + (maxPages - pages) := by
  intro q v acc pages
  induction q, v, acc, pages using crawlLoop.induct web maxPages with
  | case1 v acc pages h =>
    rw [crawlLoop_nil h]
    omega
  | case2 v acc pages h current rest hc ih =>
    rw [crawlLoop_skip h hc]
    exact ih
  | case3 v acc pages h current rest hc visited' hw ih =>
    rw [crawlLoop_fetchfail h (by simpa using hc) hw]
    have ih' : (crawlLoop web maxPages rest (v ++ [current]) acc (pages + 1)).length ≤
        acc.length + (maxPages - (pages + 1)) := ih
    omega
  | case4 v acc pages h current rest hc visited' soup hw pageType title slug allPages' found next hfn ih =>
    rw [crawlLoop_visit h (by simpa using hc) hw, hfn]
    dsimp only
    have ih' : (crawlLoop web maxPages (extendQueue rest found (v ++ [current]) next)
        (v ++ [current])
        (acc ++ [CrawlPage.mk current (pageTitle current soup)
          (pageSlug current (pageTitle current soup)) (determinePageType current soup)])
        (pages + 1)).length ≤
        (acc ++ [CrawlPage.mk current (pageTitle current soup)
          (pageSlug current (pageTitle current soup)) (determinePageType current soup)]).length +
          (maxPages - (pages + 1)) := ih
    simp only [List.length_append, List.length_cons, List.length_nil] at ih' ⊢
    omega
  | case5 q v acc pages h =>
    rw [crawlLoop_stop h]
    omega

theorem crawlLoop_keeps_accum (web : Web) (maxPages : ℕ) :
    ∀ (q v : List String) (acc : List CrawlPage) (pages : ℕ),
      acc <+: crawlLoop web maxPages q v acc pages := by
  intro q v acc pages
  induction q, v, acc, pages using crawlLoop.induct web maxPages with
  | case1 v acc pages h => rw [crawlLoop_nil h]
  | case2 v acc pages h current rest hc ih =>
    rw [crawlLoop_skip h hc]
    exact ih
  | case3 v acc pages h current rest hc visited' hw ih =>
    rw [crawlLoop_fetchfail h (by simpa using hc) hw]
    exact ih
  | case4 v acc pages h current rest hc visited' soup hw pageType title slug allPages' found next hfn ih =>
    rw [crawlLoop_visit h (by simpa using hc) hw, hfn]
    dsimp only
    have ih' : (acc ++ [CrawlPage.mk current (pageTitle current soup)
        (pageSlug current (pageTitle current soup)) (determinePageType current soup)]) <+:
        crawlLoop web maxPages (extendQueue rest found (v ++ [current]) next)
          (v ++ [current])
          (acc ++ [CrawlPage.mk current (pageTitle current soup)
            (pageSlug current (pageTitle current soup)) (determinePageType current soup)])
          (pages + 1) := ih
    exact (List.prefix_append acc _).trans ih'
  | case5 q v acc pages h => rw [crawlLoop_stop h]

/-- C3: for every environment, start URL and budget `N`, the crawler
records at most `N` pages, and the recorded-pages accumulator is only
ever extended — on budget exhaustion or queue depletion the pages
visited so far are returned, never discarded. -/
theorem crawl_budget_partial_results (web : Web) (startUrl : String) (maxPages : ℕ) :
    (findAllPageLinks web startUrl maxPages).length ≤ maxPages ∧
    (∀ (q v : List String) (acc : List CrawlPage) (pages : ℕ),
      acc <+: crawlLoop web maxPages q v acc pages ∧
      (crawlLoop web maxPages q v acc pages).length ≤ acc.length + (maxPages - pages)) := by
  constructor
  · unfold findAllPageLinks
    cases web startUrl with
    | none => simp
    | some d =>
      have := crawlLoop_length_le web maxPages [startUrl] [] [] 0
      simpa using this
  · intro q v acc pages
    exact ⟨crawlLoop_keeps_accum web maxPages q v acc pages,
      crawlLoop_length_le web maxPages q v acc pages⟩

/-! ## C4: exclusion of denylisted URLs -/

theorem isPrefixL_iff {pat s : List Char} : isPrefixL pat s = true ↔ pat <+: s := by
  induction pat generalizing s with
  | nil => simp [isPrefixL]
  | cons a as ih =>
    cases s with
    | nil => simp [isPrefixL]
    | cons b bs =>
      simp only [isPrefixL, Bool.and_eq_true, decide_eq_true_eq, ih,
        List.cons_prefix_cons]

theorem hasInfixL_iff {s pat : List Char} : hasInfixL s pat = true ↔ pat <:+: s := by
  induction s with
  | nil =>
    rw [hasInfixL_nil]
    cases pat with
    | nil => simp [isPrefixL, List.infix_refl]
    | cons a t => simp [isPrefixL]
  | cons a t ih =>
    rw [hasInfixL_cons]
    simp only [Bool.or_eq_true, isPrefixL_iff, ih, List.infix_cons_iff]

theorem splitFirstOn_fst_leading (sep : Char) :
    ∀ l : List Char, (splitFirstOn sep l).1 <+: l := by
  intro l
  induction l with
  | nil => simp [splitFirstOn]
  | cons c t ih =>
    unfold splitFirstOn
    by_cases hc : c = sep
    · simp [hc]
    · simp only [if_neg hc]
      exact List.cons_prefix_cons.mpr ⟨rfl, ih⟩

theorem splitFirstInfix_decomp (pat : List Char) :
    ∀ l r : List Char, (splitFirstInfix pat l).2 = some r →
      l = (splitFirstInfix pat l).1 ++ pat ++ r := by
  intro l
  induction l with
  | nil => intro r h; simp [splitFirstInfix] at h
  | cons c t ih =>
    intro r h
    by_cases hp : isPrefixL pat (c :: t) = true
    · have hfst : (splitFirstInfix pat (c :: t)).1 = [] := by
        unfold splitFirstInfix
        rw [if_pos hp]
      have hsnd : (splitFirstInfix pat (c :: t)).2 = some ((c :: t).drop pat.length) := by
        unfold splitFirstInfix
        rw [if_pos hp]
      rw [hsnd] at h
      injection h with h
      subst h
      rw [hfst, List.nil_append]
      obtain ⟨rest, hrest⟩ := isPrefixL_iff.mp hp
      rw [← hrest, List.drop_left]
    · have hfst : (splitFirstInfix pat (c :: t)).1 = c :: (splitFirstInfix pat t).1 := by
        conv_lhs => unfold splitFirstInfix
        rw [if_neg hp]
      have hsnd : (splitFirstInfix pat (c :: t)).2 = (splitFirstInfix pat t).2 := by
        conv_lhs => unfold splitFirstInfix
        rw [if_neg hp]
      rw [hsnd] at h
      rw [hfst]
      have := ih r h
      conv_lhs => rw [this]
      simp

theorem pyLower_data (s : String) : (pyLower s).data = s.data.map pyLowerChar := rfl

theorem unparse_parse_substring (u : String) :
    (unparseClean (urlparse u)).data <:+: u.data := by
  have h1 : (splitFirstOn '#' u.data).1 <+: u.data := splitFirstOn_fst_leading _ _
  have h2 : (splitFirstOn '?' (splitFirstOn '#' u.data).1).1 <+:
      (splitFirstOn '#' u.data).1 := splitFirstOn_fst_leading _ _
  have hmainu : (splitFirstOn '?' (splitFirstOn '#' u.data).1).1 <+: u.data :=
    h2.trans h1
  unfold urlparse
  cases hsi : (splitFirstInfix [':', '/', '/']
      (splitFirstOn '?' (splitFirstOn '#' u.data).1).1).2 with
  | none =>
    unfold unparseClean
    rw [if_pos ⟨rfl, rfl⟩]
    exact hmainu.isInfix
  | some r =>
    have hdec : (splitFirstOn '?' (splitFirstOn '#' u.data).1).1 =
        (splitFirstInfix [':', '/', '/']
          (splitFirstOn '?' (splitFirstOn '#' u.data).1).1).1 ++ [':', '/', '/'] ++ r := by
      exact splitFirstInfix_decomp _ _ r hsi
    have hta : List.takeWhile (fun c => c ≠ '/') r ++ List.dropWhile (fun c => c ≠ '/') r = r :=
      List.takeWhile_append_dropWhile _ _
    dsimp only
    unfold unparseClean
    dsimp only
    split
    · have hsuf1 : List.dropWhile (fun c => c ≠ '/') r <:+ r :=
        ⟨List.takeWhile (fun c => c ≠ '/') r, hta⟩
      have hsuf2 : r <:+ (splitFirstOn '?' (splitFirstOn '#' u.data).1).1 := by
        refine ⟨(splitFirstInfix [':', '/', '/']
          (splitFirstOn '?' (splitFirstOn '#' u.data).1).1).1 ++ [':', '/', '/'], ?_⟩
        conv_rhs => rw [hdec]
      exact ((hsuf1.trans hsuf2).isInfix).trans hmainu.isInfix
    · show ((splitFirstInfix [':', '/', '/']
          (splitFirstOn '?' (splitFirstOn '#' u.data).1).1).1 ++ [':', '/', '/'] ++
          List.takeWhile (fun c => c ≠ '/') r ++
          List.dropWhile (fun c => c ≠ '/') r) <:+: u.data
      rw [List.append_assoc ((splitFirstInfix [':', '/', '/']
          (splitFirstOn '?' (splitFirstOn '#' u.data).1).1).1 ++ [':', '/', '/']), hta, ← hdec]
      exact hmainu.isInfix

/-- A normalized (query- and fragment-stripped) URL is excluded only if
the URL it came from already was: the clean form is a contiguous
substring. -/
theorem shouldExclude_unparse_clean {absU : String}
    (h : shouldExcludeUrl absU = false)
    (hne : unparseClean (urlparse absU) ≠ "") :
    shouldExcludeUrl (unparseClean (urlparse absU)) = false := by
  unfold shouldExcludeUrl at h ⊢
  rw [if_neg hne]
  by_cases habs : absU = ""
  · rw [if_pos habs] at h
    exact absurd h (by simp)
  · rw [if_neg habs] at h
    rw [List.any_eq_false] at h ⊢
    intro pat hpat
    have habs' := h pat hpat
    simp only [Bool.not_eq_true] at habs' ⊢
    by_contra hcon
    rw [Bool.not_eq_false] at hcon
    apply absurd habs'
    simp only [Bool.not_eq_false]
    unfold strContains at hcon ⊢
    rw [hasInfixL_iff] at hcon ⊢
    rw [pyLower_data] at hcon ⊢
    exact hcon.trans ((unparse_parse_substring absU).map pyLowerChar)

theorem discoverFound_not_excluded (baseUrl : String) (anchors : List String) :
    ∀ u ∈ discoverFound baseUrl anchors, shouldExcludeUrl u = false := by
  unfold discoverFound
  have main : ∀ (ans : List String) (acc : List String),
      (∀ u ∈ acc, shouldExcludeUrl u = false) →
      ∀ u ∈ ans.foldl
        (fun acc href =>
          if href = "" then acc
          else
            let absUrl := urljoin baseUrl href
            if sameDomain baseUrl absUrl && !shouldExcludeUrl absUrl then
              let cleanUrl := unparseClean (urlparse absUrl)
              if cleanUrl ≠ "" ∧ cleanUrl ≠ baseUrl ∧ cleanUrl ∉ acc then acc ++ [cleanUrl]
              else acc
            else acc) acc,
        shouldExcludeUrl u = false := by
    intro ans
    induction ans with
    | nil => intro acc hacc u hu; exact hacc u hu
    | cons a t ih =>
      intro acc hacc u hu
      rw [List.foldl_cons] at hu
      refine ih _ ?_ u hu
      by_cases ha : a = ""
      · simpa [ha] using hacc
      · simp only [if_neg ha]
        by_cases hd : sameDomain baseUrl (urljoin baseUrl a) &&
            !shouldExcludeUrl (urljoin baseUrl a)
        · simp only [hd, if_true]
          have hexcl : shouldExcludeUrl (urljoin baseUrl a) = false := by
            rcases Bool.and_eq_true .. ▸ hd with ⟨-, h2⟩
            simpa using h2
          split
          · rename_i hcond
            intro u hu
            rcases List.mem_append.mp hu with h | h
            · exact hacc u h
            · simp only [List.mem_singleton] at h
              subst h
              exact shouldExclude_unparse_clean hexcl hcond.1
          · exact hacc
        · simp only [hd]
          simpa using hacc
  intro u hu
  exact main anchors [] (by simp) u hu

theorem crawlLoop_all_not_excluded (web : Web) (maxPages : ℕ) :
    ∀ (q v : List String) (acc : List CrawlPage) (pages : ℕ),
      acc.all (fun pg => !shouldExcludeUrl pg.url) = true →
      (crawlLoop web maxPages q v acc pages).all
        (fun pg => !shouldExcludeUrl pg.url) = true := by
  intro q v acc pages
  induction q, v, acc, pages using crawlLoop.induct web maxPages with
  | case1 v acc pages h =>
    intro hacc
    rw [crawlLoop_nil h]
    exact hacc
  | case2 v acc pages h current rest hc ih =>
    intro hacc
    rw [crawlLoop_skip h hc]
    exact ih hacc
  | case3 v acc pages h current rest hc visited' hw ih =>
    intro hacc
    rw [crawlLoop_fetchfail h (by simpa using hc) hw]
    exact ih hacc
  | case4 v acc pages h current rest hc visited' soup hw pageType title slug allPages' found next hfn ih =>
    intro hacc
    rw [crawlLoop_visit h (by simpa using hc) hw, hfn]
    dsimp only
    apply ih
    show (acc ++ [CrawlPage.mk current (pageTitle current soup)
      (pageSlug current (pageTitle current soup)) (determinePageType current soup)]).all
      (fun pg => !shouldExcludeUrl pg.url) = true
    rw [List.all_append, Bool.and_eq_true]
    refine ⟨hacc, ?_⟩
    simp only [List.all_cons, List.all_nil, Bool.and_true]
    simp only [Bool.or_eq_true, not_or, Bool.not_eq_true] at hc
    simp [hc.2]
  | case5 q v acc pages h =>
    intro hacc
    rw [crawlLoop_stop h]
    exact hacc

/-- C4 counterexample: the claim's "never enqueued" fails for the
pagination "next" link.  A page whose "next" candidate resolves to
`http://a.com/checkout` has that URL returned unfiltered by link
discovery and appended to the work queue by the crawler's
queue-extension step, although it is an excluded URL. -/
theorem next_link_enqueued_despite_exclusion :
    discoverAllLinksFromPage "http://a.com/p"
        ⟨[], some "/checkout", true, false, false, false, false, true, some "T", none, none⟩ =
      ([], some "http://a.com/checkout") ∧
    extendQueue [] [] ["http://a.com/p"] (some "http://a.com/checkout") =
      ["http://a.com/checkout"] ∧
    shouldExcludeUrl "http://a.com/checkout" = true := by
  refine ⟨by decide, by decide, by decide⟩

/-- C4 (amended): a URL containing `/checkout`, `/sepet`, `/login`,
`/api/` (case-insensitively) or `.json`/`.xml`/`.rss` is never visited
or recorded by the crawler, and anchor-discovered links are filtered
before enqueueing; the pagination "next" link, however, is enqueued
without an exclusion check and only discarded at dequeue time. -/
theorem excluded_urls_never_visited :
    (∀ (web : Web) (startUrl : String) (maxPages : ℕ),
      (findAllPageLinks web startUrl maxPages).all
        (fun pg => !shouldExcludeUrl pg.url) = true) ∧
    (∀ (web : Web) (startUrl : String) (maxPages : ℕ),
      (findAllPageLinks web startUrl maxPages).all
        (fun pg => claimPatterns.all
          (fun pat => !strContains (pyLower pg.url) pat)) = true) ∧
    (∀ (baseUrl : String) (soup : Doc),
      (discoverAllLinksFromPage baseUrl soup).1.all
        (fun u => !shouldExcludeUrl u) = true) := by
  have hvisit : ∀ (web : Web) (startUrl : String) (maxPages : ℕ),
      (findAllPageLinks web startUrl maxPages).all
        (fun pg => !shouldExcludeUrl pg.url) = true := by
    intro web startUrl maxPages
    unfold findAllPageLinks
    cases web startUrl with
    | none => rfl
    | some d => exact crawlLoop_all_not_excluded web maxPages [startUrl] [] [] 0 rfl
  refine ⟨hvisit, ?_, ?_⟩
  · intro web startUrl maxPages
    have h := hvisit web startUrl maxPages
    rw [List.all_eq_true] at h ⊢
    intro pg hpg
    have hex : shouldExcludeUrl pg.url = false := by
      have := h pg hpg
      simpa using this
    rw [List.all_eq_true]
    intro pat hpat
    have hpat' : pat ∈ excludePatterns := by
      fin_cases hpat <;> decide
    unfold shouldExcludeUrl at hex
    by_cases hu : pg.url = ""
    · rw [if_pos hu] at hex
      exact absurd hex (by simp)
    · rw [if_neg hu] at hex
      rw [List.any_eq_false] at hex
      have := hex pat hpat'
      simpa using this
  · intro baseUrl soup
    rw [List.all_eq_true]
    intro u hu
    have := discoverFound_not_excluded baseUrl soup.anchors u hu
    simp [this]

/-! ## C6: JSON-LD product-node selection -/

/-- C6 counterexample: a later candidate with a direct `@type:
"Product"` overrides an earlier `@graph`-nested Product.  Under the
claim's rule (first Product-typed candidate in document order,
`@graph` children included) the node named `"A"` would be selected; the
code selects `"B"`. -/
theorem ldjson_later_direct_overrides_graph :
    (parse_ld_json_product
        [some (.obj [("@graph", .arr [.obj [("@type", .str "Product"), ("name", .str "A")]])]),
         some (.obj [("@type", .str "Product"), ("name", .str "B")])]
        "http://a.com").name = some "B" ∧
    ((specFirstProductNode (collectCandidates
        [some (.obj [("@graph", .arr [.obj [("@type", .str "Product"), ("name", .str "A")]])]),
         some (.obj [("@type", .str "Product"), ("name", .str "B")])])).map
      (fun o => pyStr (jsonGet o "name"))) = some "A" := by
  exact ⟨by decide, by decide⟩

/-- C6 (amended): the selection loop picks the first candidate whose
own `@type` declares (or, as a list, includes) `Product`; only when no
candidate does is an `@graph`-nested Product used, and then the hit of
the *last* candidate carrying one wins — a later direct-typed candidate
overrides any earlier `@graph` hit, so the claim's "no later candidate
overrides an earlier Product-typed one" holds only for direct-typed
candidates. -/
theorem ldjson_selection_order :
    ∀ (cands : List JsonObj) (fallback : Option JsonObj),
      selectProductNode fallback cands =
        match cands.find? hasDirectProductType with
        | some n => some n
        | none => lastGraphProduct fallback cands := by
  intro cands
  induction cands with
  | nil => intro fallback; rfl
  | cons n rest ih =>
    intro fallback
    by_cases hd : hasDirectProductType n = true
    · rw [List.find?_cons_of_pos _ hd]
      unfold selectProductNode
      rw [if_pos hd]
    · rw [List.find?_cons_of_neg _ (by simpa using hd)]
      unfold selectProductNode
      rw [if_neg (by simpa using hd)]
      have hlast : lastGraphProduct fallback (n :: rest) =
          lastGraphProduct (match graphProduct n with
            | some g => some g
            | none => fallback) rest := by
        unfold lastGraphProduct
        rw [List.foldl_cons]
      cases hg : graphProduct n with
      | some sub =>
        rw [hlast, hg]
        dsimp only
        exact ih (some sub)
      | none =>
        rw [hlast, hg]
        dsimp only
        exact ih fallback

/-! ## C7: robustness of `parse_ld_json_product` -/

theorem collectCandidates_skip (l1 l2 : List (Option Json)) :
    collectCandidates (l1 ++ none :: l2) = collectCandidates (l1 ++ l2) := by
  unfold collectCandidates
  rw [List.foldl_append, List.foldl_append, List.foldl_cons]

/-- C7: `parse_ld_json_product` is total and forgiving — a block whose
structured data fails to parse is skipped, leaving the result exactly
that of the remaining blocks, and when no Product-typed node exists the
result is the record with every field absent. -/
theorem ldjson_total_and_absent :
    (∀ (l1 l2 : List (Option Json)) (base : String),
      parse_ld_json_product (l1 ++ none :: l2) base = parse_ld_json_product (l1 ++ l2) base) ∧
    (∀ (blocks : List (Option Json)) (base : String),
      selectProductNode none (collectCandidates blocks) = none →
      parse_ld_json_product blocks base =
        { name := none, sku := none, description_html := none, price := none,
          currency := none, image := none, images := none, brand := none,
          barcode := none, category_path := none }) := by
  constructor
  · intro l1 l2 base
    unfold parse_ld_json_product
    rw [collectCandidates_skip]
  · intro blocks base hsel
    unfold parse_ld_json_product
    rw [hsel]

/-- Witness for C7 at a concrete document: one unparsable block and one
non-Product block yield the all-absent record. -/
theorem ldjson_total_and_absent_witness :
    parse_ld_json_product [none, some (.str "x")] "http://a.com" =
      { name := none, sku := none, description_html := none, price := none,
        currency := none, image := none, images := none, brand := none,
        barcode := none, category_path := none } :=
  ldjson_total_and_absent.2 [none, some (.str "x")] "http://a.com" rfl

/-! ## C8: the generated redirect-file rows -/

theorem splitOnCharL_ne_nil (sep : Char) : ∀ l : List Char, splitOnCharL sep l ≠ [] := by
  intro l
  induction l with
  | nil => simp [splitOnCharL]
  | cons c t ih =>
    unfold splitOnCharL
    by_cases hc : c = sep
    · simp [hc]
    · simp only [if_neg hc]
      cases h : splitOnCharL sep t with
      | nil => exact absurd h ih
      | cons a b => simp

theorem splitOnCharL_no_sep {sep : Char} :
    ∀ {l : List Char}, (∀ c ∈ l, c ≠ sep) → splitOnCharL sep l = [l] := by
  intro l
  induction l with
  | nil => intro _; rfl
  | cons c t ih =>
    intro h
    unfold splitOnCharL
    rw [if_neg (h c (List.mem_cons_self c t))]
    rw [ih (fun x hx => h x (List.mem_cons_of_mem c hx))]

theorem splitOnCharL_length_two {sep : Char} :
    ∀ {l : List Char}, sep ∈ l → 2 ≤ (splitOnCharL sep l).length := by
  intro l
  induction l with
  | nil => intro h; simp at h
  | cons c t ih =>
    intro h
    unfold splitOnCharL
    by_cases hc : c = sep
    · rw [if_pos hc]
      have := splitOnCharL_ne_nil sep t
      cases hs : splitOnCharL sep t with
      | nil => exact absurd hs this
      | cons a b => simp
    · rw [if_neg hc]
      have hmem : sep ∈ t := by
        rcases List.mem_cons.mp h with h | h
        · exact absurd h.symm hc
        · exact h
      have h2 := ih hmem
      cases hs : splitOnCharL sep t with
      | nil => exact absurd hs (splitOnCharL_ne_nil sep t)
      | cons a b =>
        rw [hs] at h2
        simpa using h2

theorem lastSegment_no_sep {sep : Char} {l : List Char}
    (h : ∀ c ∈ l, c ≠ sep) : lastSegment sep l = l := by
  unfold lastSegment
  rw [splitOnCharL_no_sep h]
  rfl

theorem lastSegment_append {sep : Char} :
    ∀ (xs : List Char) {ys : List Char}, (∀ c ∈ ys, c ≠ sep) →
      lastSegment sep (xs ++ sep :: ys) = ys := by
  intro xs
  induction xs with
  | nil =>
    intro ys hys
    unfold lastSegment
    rw [List.nil_append]
    unfold splitOnCharL
    rw [if_pos rfl, splitOnCharL_no_sep hys]
    rfl
  | cons c xs' ih =>
    intro ys hys
    unfold lastSegment
    rw [List.cons_append]
    unfold splitOnCharL
    by_cases hc : c = sep
    · rw [if_pos hc]
      cases hs : splitOnCharL sep (xs' ++ sep :: ys) with
      | nil => exact absurd hs (splitOnCharL_ne_nil _ _)
      | cons a b =>
        rw [List.getLast?_cons_cons]
        have := ih hys
        unfold lastSegment at this
        rw [hs] at this
        exact this
    · rw [if_neg hc]
      have hlen := splitOnCharL_length_two
        (List.mem_append_right xs' (List.mem_cons_self sep ys))
      cases hs : splitOnCharL sep (xs' ++ sep :: ys) with
      | nil => exact absurd hs (splitOnCharL_ne_nil _ _)
      | cons a b =>
        rw [hs] at hlen
        cases b with
        | nil => simp at hlen
        | cons b1 b2 =>
          rw [List.getLast?_cons_cons]
          have := ih hys
          unfold lastSegment at this
          rw [hs, List.getLast?_cons_cons] at this
          exact this

theorem splitFirstOn_no_sep {sep : Char} :
    ∀ {l : List Char}, (∀ c ∈ l, c ≠ sep) → splitFirstOn sep l = (l, none) := by
  intro l
  induction l with
  | nil => intro _; rfl
  | cons c t ih =>
    intro h
    unfold splitFirstOn
    rw [if_neg (h c (List.mem_cons_self c t)), ih (fun x hx => h x (List.mem_cons_of_mem c hx))]

theorem splitFirstInfix_no_colon :
    ∀ {l : List Char}, (∀ c ∈ l, c ≠ ':') →
      splitFirstInfix [':', '/', '/'] l = (l, none) := by
  intro l
  induction l with
  | nil => intro _; rfl
  | cons c t ih =>
    intro h
    unfold splitFirstInfix
    have hp : isPrefixL [':', '/', '/'] (c :: t) = false := by
      simp only [isPrefixL, Bool.and_eq_false_iff, decide_eq_false_iff_not]
      exact Or.inl (fun he => h c (List.mem_cons_self c t) he.symm)
    rw [hp]
    simp only [Bool.false_eq_true, if_false]
    rw [ih (fun x hx => h x (List.mem_cons_of_mem c hx))]

/-- A URL string free of `#`, `?` and `:` parses with itself as the
whole path. -/
theorem urlparse_plain_path {l : List Char}
    (h : ∀ c ∈ l, c ≠ '#' ∧ c ≠ '?' ∧ c ≠ ':') :
    (urlparse ⟨l⟩).path = l := by
  unfold urlparse
  have h1 : splitFirstOn '#' (⟨l⟩ : String).data = (l, none) :=
    splitFirstOn_no_sep (fun c hc => (h c hc).1)
  rw [h1]
  have h2 : splitFirstOn '?' l = (l, none) :=
    splitFirstOn_no_sep (fun c hc => (h c hc).2.1)
  rw [h2]
  have h3 : splitFirstInfix [':', '/', '/'] l = (l, none) :=
    splitFirstInfix_no_colon (fun c hc => (h c hc).2.2)
  rw [h3]

theorem dropWhileEnd_no_op {p : Char → Bool} {l : List Char}
    (h : ∀ c, l.getLast? = some c → p c = false) : dropWhileEnd p l = l := by
  unfold dropWhileEnd
  cases hr : l.reverse with
  | nil =>
    have : l = [] := by simpa using congrArg List.reverse hr
    simp [this]
  | cons a t =>
    have ha : l.getLast? = some a := by
      rw [← List.head?_reverse, hr]
      rfl
    rw [List.dropWhile_cons, h a ha]
    simp only [Bool.false_eq_true, if_false]
    rw [← hr, List.reverse_reverse]

theorem mem_of_getLast?_eq {l : List Char} {c : Char}
    (h : l.getLast? = some c) : c ∈ l := by
  have hx : c ∈ l.getLast? := by rw [h]; rfl
  rcases List.mem_getLast?_eq_getLast hx with ⟨hne, heq⟩
  rw [heq]
  exact List.getLast_mem hne

theorem stripSlash_shape {mid seg : List Char}
    (hmid_ne : mid ≠ []) (hseg_ne : seg ≠ [])
    (hmid : ∀ c ∈ mid, c ≠ '/') (hseg : ∀ c ∈ seg, c ≠ '/') :
    lastSegment '/' (pyStripChar '/' ('/' :: (mid ++ '/' :: seg))) = seg := by
  unfold pyStripChar
  have hd : List.dropWhile (fun c => c = '/') ('/' :: (mid ++ '/' :: seg)) =
      mid ++ '/' :: seg := by
    rw [List.dropWhile_cons, if_pos (by simp)]
    cases mid with
    | nil => exact absurd rfl hmid_ne
    | cons c mid' =>
      rw [List.cons_append, List.dropWhile_cons,
        if_neg (by simpa using hmid c (List.mem_cons_self c mid'))]
  have hlast : (mid ++ '/' :: seg).getLast? = seg.getLast? := by
    rw [List.getLast?_append_of_ne_nil _ (by simp)]
    cases seg with
    | nil => exact absurd rfl hseg_ne
    | cons a b => rw [List.getLast?_cons_cons]
  have hdw : dropWhileEnd (fun c => c = '/') (mid ++ '/' :: seg) = mid ++ '/' :: seg := by
    apply dropWhileEnd_no_op
    intro c hc
    rw [hlast] at hc
    simpa using hseg c (mem_of_getLast?_eq hc)
  rw [hd, hdw]
  exact lastSegment_append mid hseg

theorem stripSlash_flat {seg : List Char}
    (hseg_ne : seg ≠ []) (hseg : ∀ c ∈ seg, c ≠ '/') :
    lastSegment '/' (pyStripChar '/' ('/' :: seg)) = seg := by
  unfold pyStripChar
  have hd : List.dropWhile (fun c => c = '/') ('/' :: seg) = seg := by
    rw [List.dropWhile_cons, if_pos (by simp)]
    cases seg with
    | nil => exact absurd rfl hseg_ne
    | cons c s' =>
      rw [List.dropWhile_cons, if_neg (by simpa using hseg c (List.mem_cons_self c s'))]
  have hdw : dropWhileEnd (fun c => c = '/') seg = seg := by
    apply dropWhileEnd_no_op
    intro c hc
    simpa using hseg c (mem_of_getLast?_eq hc)
  rw [hd, hdw]
  exact lastSegment_no_sep hseg

/-- C8 counterexample: for a matched product page the claim's
"`Yönlendirilecek Adres` equals the assigned target path" fails — the
target path is `/urun/my-slug` but the emitted column holds only the
slash-prefixed last segment `/my-slug`. -/
theorem redirect_target_column_keeps_last_segment :
    (matchPage (buildIndexes [⟨"my-slug", "abc-1", "", ""⟩])
        ⟨"http://a.com/urun-x", "T", "t", "product"⟩
        (some (some "abc-1", none))).targetPath = "/urun/my-slug" ∧
    (ikas301Row (buildRedirectRow ⟨"http://a.com/urun-x", "T", "t", "product"⟩
        (matchPage (buildIndexes [⟨"my-slug", "abc-1", "", ""⟩])
          ⟨"http://a.com/urun-x", "T", "t", "product"⟩
          (some (some "abc-1", none))))).yonlendirilecekAdres = "/my-slug" ∧
    ("/my-slug" : String) ≠ "/urun/my-slug" := by
  exact ⟨by decide, by decide, by decide⟩

/-- C8 (amended): every generated redirect row has `ID = ""`,
`Geçici Yönlendirme (302) = "false"` and `Silindi mi? = "false"`; the
`Kaynak Adres` column is the source URL's slash-leading path; the
`Yönlendirilecek Adres` column is empty for unmatched pages and
otherwise holds the slash-prefixed *last segment* of the assigned
target path (so `/urun/x`, `/blog/x` and `/pages/x` all emit `/x`,
while a category target `/x` is emitted unchanged). -/
theorem redirect_file_columns (page : CrawlPage) (m : MatchResult) (row : Ikas301Row)
    (hrow : row = ikas301Row (buildRedirectRow page m)) :
    row.id = "" ∧ row.gecici302 = "false" ∧ row.silindiMi = "false" ∧
    ((urlparse page.url).path ≠ [] → isPrefixL ['/'] (urlparse page.url).path = true →
      row.kaynakAdres = ⟨(urlparse page.url).path⟩) ∧
    (m.targetPath = "" → row.yonlendirilecekAdres = "") ∧
    (∀ mid seg : List Char,
      m.targetPath = ⟨'/' :: (mid ++ '/' :: seg)⟩ → mid ≠ [] → seg ≠ [] →
      (∀ c ∈ mid, c ≠ '/' ∧ c ≠ ':' ∧ c ≠ '?' ∧ c ≠ '#') →
      (∀ c ∈ seg, c ≠ '/' ∧ c ≠ ':' ∧ c ≠ '?' ∧ c ≠ '#') →
      row.yonlendirilecekAdres = ⟨'/' :: seg⟩) ∧
    (∀ seg : List Char,
      m.targetPath = ⟨'/' :: seg⟩ → seg ≠ [] →
      (∀ c ∈ seg, c ≠ '/' ∧ c ≠ ':' ∧ c ≠ '?' ∧ c ≠ '#') →
      row.yonlendirilecekAdres = ⟨'/' :: seg⟩) := by
  subst hrow
  refine ⟨rfl, rfl, rfl, ?_, ?_, ?_, ?_⟩
  · intro hne hpre
    have hurl : page.url ≠ "" := by
      intro he
      rw [he] at hne
      exact hne rfl
    show (let path : String := if page.url ≠ "" then ⟨(urlparse page.url).path⟩ else ""
      if path ≠ "" then
        (if isPrefixL ['/'] path.data then path else "/" ++ path)
      else
        let s := (buildRedirectRow page m).from_slug
        if s ≠ "" ∧ ¬isPrefixL ['/'] s.data then "/" ++ s else s) = ⟨(urlparse page.url).path⟩
    rw [if_pos hurl]
    have hps : (⟨(urlparse page.url).path⟩ : String) ≠ "" := by
      intro he
      apply hne
      have := congrArg String.data he
      simpa using this
    rw [if_pos hps, if_pos hpre]
  · intro hempty
    have hts : (buildRedirectRow page m).to_slug = "" := by
      unfold buildRedirectRow
      rw [hempty]
      dsimp only
      simp [isPrefixL]
    unfold ikas301Row
    dsimp only
    rw [hts]
    simp
  · intro mid seg htp hmidne hsegne hmid hseg
    have hchars : ∀ c ∈ ('/' :: (mid ++ '/' :: seg)), c ≠ '#' ∧ c ≠ '?' ∧ c ≠ ':' := by
      intro c hc
      rcases List.mem_cons.mp hc with h | h
      · subst h; exact ⟨by decide, by decide, by decide⟩
      · rcases List.mem_append.mp h with h | h
        · have := hmid c h
          exact ⟨this.2.2.2, this.2.2.1, this.2.1⟩
        · rcases List.mem_cons.mp h with h | h
          · subst h; exact ⟨by decide, by decide, by decide⟩
          · have := hseg c h
            exact ⟨this.2.2.2, this.2.2.1, this.2.1⟩
    have htpne : m.targetPath ≠ "" := by
      rw [htp]
      intro he
      exact absurd (congrArg String.data he) (by simp)
    have he1 : (if m.targetPath ≠ "" then (⟨(urlparse m.targetPath).path⟩ : String) else "") =
        ⟨'/' :: (mid ++ '/' :: seg)⟩ := by
      rw [if_pos htpne, htp,
        show (urlparse ⟨'/' :: (mid ++ '/' :: seg)⟩).path = '/' :: (mid ++ '/' :: seg) from
          urlparse_plain_path hchars]
    have hts : (buildRedirectRow page m).to_slug = ⟨seg⟩ := by
      unfold buildRedirectRow
      dsimp only
      rw [he1]
      rw [if_pos (show isPrefixL ['/'] ((⟨'/' :: (mid ++ '/' :: seg)⟩ : String)).data = true by
        simp [isPrefixL])]
      rw [if_pos (show (⟨'/' :: (mid ++ '/' :: seg)⟩ : String) ≠ "" by
        intro he; exact absurd (congrArg String.data he) (by simp))]
      rw [show ((⟨'/' :: (mid ++ '/' :: seg)⟩ : String)).data = '/' :: (mid ++ '/' :: seg) from rfl]
      rw [stripSlash_shape hmidne hsegne (fun c hc => (hmid c hc).1) (fun c hc => (hseg c hc).1)]
    have hsne : (⟨seg⟩ : String) ≠ "" := by
      intro he; exact absurd (congrArg String.data he) (by simpa using hsegne)
    have hsp : ¬isPrefixL ['/'] (⟨seg⟩ : String).data = true := by
      cases seg with
      | nil => exact absurd rfl hsegne
      | cons a s' =>
        simp only [isPrefixL]
        simpa using fun he => (hseg a (List.mem_cons_self a s')).1 he.symm
    unfold ikas301Row
    dsimp only
    rw [hts, if_pos ⟨hsne, hsp⟩]
    rfl
  · intro seg htp hsegne hseg
    have hchars : ∀ c ∈ ('/' :: seg), c ≠ '#' ∧ c ≠ '?' ∧ c ≠ ':' := by
      intro c hc
      rcases List.mem_cons.mp hc with h | h
      · subst h; exact ⟨by decide, by decide, by decide⟩
      · have := hseg c h
        exact ⟨this.2.2.2, this.2.2.1, this.2.1⟩
    have htpne : m.targetPath ≠ "" := by
      rw [htp]
      intro he
      exact absurd (congrArg String.data he) (by simp)
    have he1 : (if m.targetPath ≠ "" then (⟨(urlparse m.targetPath).path⟩ : String) else "") =
        ⟨'/' :: seg⟩ := by
      rw [if_pos htpne, htp,
        show (urlparse ⟨'/' :: seg⟩).path = '/' :: seg from urlparse_plain_path hchars]
    have hts : (buildRedirectRow page m).to_slug = ⟨seg⟩ := by
      unfold buildRedirectRow
      dsimp only
      rw [he1]
      rw [if_pos (show isPrefixL ['/'] ((⟨'/' :: seg⟩ : String)).data = true by
        simp [isPrefixL])]
      rw [if_pos (show (⟨'/' :: seg⟩ : String) ≠ "" by
        intro he; exact absurd (congrArg String.data he) (by simp))]
      rw [show ((⟨'/' :: seg⟩ : String)).data = '/' :: seg from rfl]
      rw [stripSlash_flat hsegne (fun c hc => (hseg c hc).1)]
    have hsne : (⟨seg⟩ : String) ≠ "" := by
      intro he; exact absurd (congrArg String.data he) (by simpa using hsegne)
    have hsp : ¬isPrefixL ['/'] (⟨seg⟩ : String).data = true := by
      cases seg with
      | nil => exact absurd rfl hsegne
      | cons a s' =>
        simp only [isPrefixL]
        simpa using fun he => (hseg a (List.mem_cons_self a s')).1 he.symm
    unfold ikas301Row
    dsimp only
    rw [hts, if_pos ⟨hsne, hsp⟩]
    rfl

/-- Witness for C8 at a concrete page and match result. -/
theorem redirect_file_columns_witness :
    (ikas301Row (buildRedirectRow ⟨"http://a.com/urun-x", "T", "t", "product"⟩
        ⟨"/urun/my-slug", 1, "sku", "ABC", ""⟩)).id = "" ∧
    (ikas301Row (buildRedirectRow ⟨"http://a.com/urun-x", "T", "t", "product"⟩
        ⟨"/urun/my-slug", 1, "sku", "ABC", ""⟩)).kaynakAdres = "/urun-x" ∧
    (ikas301Row (buildRedirectRow ⟨"http://a.com/urun-x", "T", "t", "product"⟩
        ⟨"/urun/my-slug", 1, "sku", "ABC", ""⟩)).yonlendirilecekAdres = "/my-slug" := by
  have h := redirect_file_columns ⟨"http://a.com/urun-x", "T", "t", "product"⟩
    ⟨"/urun/my-slug", 1, "sku", "ABC", ""⟩ _ rfl
  refine ⟨h.1, ?_, ?_⟩
  · have := h.2.2.2.1 (by decide) (by decide)
    rw [this]
    decide
  · have := h.2.2.2.2.2.1 "urun".data "my-slug".data (by decide) (by decide) (by decide)
      (by decide) (by decide)
    rw [this]

end App
